import Mathlib

/-
  Verification of the tolerant JSON extraction / repair / normalization /
  validation pipeline of the lifekline repository
  (src/services/geminiService.ts).

  The development is a shallow embedding: JavaScript values are modelled by
  the inductive `JSValue` (JS numbers by `JSNum`, with exact rationals in
  place of IEEE doubles; NaN and the infinities are explicit constructors),
  and each function of the source file is translated into a total,
  executable Lean function.  `JSON.parse` and `Number`'s string conversion
  are modelled by executable parsers of the corresponding grammars.
-/

namespace LifeKline

/-- Model of a JavaScript number: NaN, signed infinity, or a finite value
(represented exactly as a rational; IEEE rounding is not modelled, which is
harmless here because the pipeline only moves numbers around). -/
inductive JSNum where
  | nan : JSNum
  | inf : Bool → JSNum   -- `inf true` is +Infinity, `inf false` is -Infinity
  | fin : ℚ → JSNum
deriving DecidableEq, Repr

/-- Model of a JavaScript value as seen by the pipeline: `undef` is
`undefined` (also the result of reading an absent property), objects are
association lists in insertion order. -/
inductive JSValue where
  | undef : JSValue
  | null : JSValue
  | bool : Bool → JSValue
  | num : JSNum → JSValue
  | str : String → JSValue
  | arr : List JSValue → JSValue
  | obj : List (String × JSValue) → JSValue

namespace JSValue

/-- JS truthiness of a number. -/
def truthyNum : JSNum → Bool
  | .nan => false
  | .inf _ => true
  | .fin q => q != 0

/-- JS truthiness. -/
def truthy : JSValue → Bool
  | .undef => false
  | .null => false
  | .bool b => b
  | .num n => truthyNum n
  | .str s => s != ""
  | .arr _ => true
  | .obj _ => true

/-- JS `a || b`. -/
def jsOr (a b : JSValue) : JSValue := if truthy a then a else b

/-- JS `a && b`. -/
def jsAnd (a b : JSValue) : JSValue := if truthy a then b else a

/-- `typeof v === 'object'` (true for null, arrays and plain objects). -/
def typeofObject : JSValue → Bool
  | .null => true
  | .arr _ => true
  | .obj _ => true
  | _ => false

/-- `typeof v === 'string'`. -/
def isStr : JSValue → Bool
  | .str _ => true
  | _ => false

/-- `Array.isArray v`. -/
def isArr : JSValue → Bool
  | .arr _ => true
  | _ => false

end JSValue

/-- First-match lookup in an object's field list; an absent key reads as
`undefined`, like JS property access on a plain object. -/
def lookupProp (m : List (String × JSValue)) (k : String) : JSValue :=
  match m with
  | [] => .undef
  | (k', v) :: rest => if k' = k then v else lookupProp rest k

/-- JS property assignment `o[k] = v` on an object represented as an
association list: replace the first binding of `k`, or append a new one. -/
def objSet (k : String) (v : JSValue) (m : List (String × JSValue)) :
    List (String × JSValue) :=
  match m with
  | [] => [(k, v)]
  | (k', v') :: rest =>
      if k' = k then (k', v) :: rest else (k', v') :: objSet k v rest

/-- Decimal digits of a natural number, fuelled (a number has at most
`n + 1` digits, so the fuel below never runs out). -/
def natDigits : Nat → Nat → List Char
  | 0, _ => []
  | fuel + 1, n =>
      if n < 10 then [Char.ofNat (48 + n)]
      else natDigits fuel (n / 10) ++ [Char.ofNat (48 + n % 10)]

/-- Decimal representation of a natural number (the string JS uses for
array indices in spreads such as `{...someArray}`). -/
def natToStr (n : Nat) : String := String.mk (natDigits (n + 1) n)

/-- Index-keyed fields produced by spreading a JS array into an object
(`{...xs}` yields keys "0", "1", ...), starting at index `i`. -/
def idxFrom (i : Nat) : List JSValue → List (String × JSValue)
  | [] => []
  | x :: xs => (natToStr i, x) :: idxFrom (i + 1) xs

/-- Index-keyed fields produced by spreading a JS string into an object
(`{..."ab"}` yields single-character string values at keys "0", "1", ...). -/
def idxChars (i : Nat) : List Char → List (String × JSValue)
  | [] => []
  | c :: cs => (natToStr i, .str (String.singleton c)) :: idxChars (i + 1) cs

/-- Fields of the shallow copy `{...v}`: objects keep their fields, arrays
and strings spread to index keys, every other value spreads to nothing. -/
def spreadFields : JSValue → List (String × JSValue)
  | .obj m => m
  | .arr xs => idxFrom 0 xs
  | .str s => idxChars 0 s.data
  | _ => []

/-- JS property read `v[k]`, total model: objects use their fields,
arrays and strings expose `length` and index keys, every other read
yields `undefined` (reads on null/undefined, which would throw in JS,
are guarded at every use site in the source). -/
def getProp (v : JSValue) (k : String) : JSValue :=
  match v with
  | .obj m => lookupProp m k
  | .arr xs => if k = "length" then .num (.fin xs.length) else lookupProp (idxFrom 0 xs) k
  | .str s => if k = "length" then .num (.fin s.length) else lookupProp (idxChars 0 s.data) k
  | _ => JSValue.undef

/-! ### JavaScript whitespace, trimming, and the `,\s*}` / `,\s*]` repair -/

/-- The character class matched by the regex `\s` in JavaScript (also the
set removed by `String.prototype.trim`). -/
def isJsWs (c : Char) : Bool :=
  c = ' ' || c = '\t' || c = '\n' || c = '\r' || c = '\x0b' || c = '\x0c' ||
  c = ' ' || c = ' ' ||
  (' ' ≤ c && c ≤ ' ') ||
  c = ' ' || c = ' ' || c = ' ' || c = ' ' ||
  c = '　' || c = '﻿'

/-- `String.prototype.trim` on a character list. -/
def jsTrimList (l : List Char) : List Char :=
  ((l.dropWhile isJsWs).reverse.dropWhile isJsWs).reverse

/-- `String.prototype.trim`. -/
def jsTrim (s : String) : String := String.mk (jsTrimList s.data)

/-- Does the list start with whitespace (possibly none) followed by the
character `c`?  This is exactly a match of the regex `\s*c` anchored at the
start, used to recognise the tail of a `,\s*c` trailing-comma match. -/
def wsClose (c : Char) : List Char → Bool
  | [] => false
  | x :: rest => x = c || (isJsWs x && wsClose c rest)

/-- One global-replace pass of the regex `,\s*c → c` (for `c` one of `}`
or `]`), exactly as `String.prototype.replace(/,\s*c/g, 'c')` behaves: a
left-to-right scan replacing non-overlapping matches.  The Boolean state is
true while the whitespace of a recognised match is being deleted (the match
was committed when its comma was seen, so the scan is structural). -/
def sweep (c : Char) : Bool → List Char → List Char
  | _, [] => []
  | true, x :: rest =>
      if x = c then c :: sweep c false rest
      else if isJsWs x then sweep c true rest
      else x :: sweep c false rest
  | false, x :: rest =>
      if x = ',' && wsClose c rest then sweep c true rest
      else x :: sweep c false rest

/-- `removeTrailingCommas` of geminiService.ts: replace `,\s*}` by `}`,
then `,\s*]` by `]`. -/
def removeTrailingCommas (jsonLike : String) : String :=
  String.mk (sweep ']' false (sweep '}' false jsonLike.data))

/-- Does the list contain a match of the regex `,\s*c` anywhere? -/
def hasMatch (c : Char) : List Char → Bool
  | [] => false
  | x :: rest => (x = ',' && wsClose c rest) || hasMatch c rest

/-! ### Splitting `analysis.bazi` -/

/-- The separator class of the regex `[,，\s]+` used to split a textual
`analysis.bazi` (ASCII comma, full-width comma, whitespace). -/
def isBaziSep (c : Char) : Bool := c = ',' || c = '，' || isJsWs c

mutual

/-- `String.prototype.split(/[,，\s]+/)`: accumulate the current fragment
(in reverse) until a separator run starts. -/
def sepSplitGo (cur : List Char) : List Char → List (List Char)
  | [] => [cur.reverse]
  | x :: rest =>
      if isBaziSep x then cur.reverse :: sepSplitSkip rest
      else sepSplitGo (x :: cur) rest

/-- Skip the rest of a separator run; a run that reaches the end of the
input contributes a trailing empty fragment, as JS `split` does. -/
def sepSplitSkip : List Char → List (List Char)
  | [] => [[]]
  | x :: rest =>
      if isBaziSep x then sepSplitSkip rest
      else sepSplitGo [x] rest

end

/-- `bazi.split(/[,，\s]+/).map(s => s.trim()).filter(Boolean)` from
normalizeParsedData. -/
def baziTokens (s : String) : List String :=
  (((sepSplitGo [] s.data).map (fun t => jsTrim (String.mk t))).filter
    (fun t => t ≠ ""))

/-! ### The `Number(...)` conversion -/

/-- Decimal digits of a character list prefix: returns the digits read and
the rest. -/
def takeDigits : List Char → List Char × List Char
  | [] => ([], [])
  | c :: rest =>
      if c.isDigit then
        let (ds, r) := takeDigits rest
        (c :: ds, r)
      else ([], c :: rest)

/-- Numeric value of a list of decimal digits. -/
def digitsVal (ds : List Char) : Nat :=
  ds.foldl (fun acc c => acc * 10 + (c.toNat - 48)) 0

/-- Value of a hexadecimal digit, if any. -/
def hexVal (c : Char) : Option Nat :=
  if '0' ≤ c && c ≤ '9' then some (c.toNat - 48)
  else if 'a' ≤ c && c ≤ 'f' then some (c.toNat - 87)
  else if 'A' ≤ c && c ≤ 'F' then some (c.toNat - 55)
  else none

/-- Digits of a radix-`b` integer literal; `none` if a character is not a
digit of that radix or the list is empty. -/
def radixVal (b : Nat) : List Char → Option Nat
  | [] => none
  | l => go l 0
where
  go : List Char → Nat → Option Nat
    | [], acc => some acc
    | c :: rest, acc =>
        match hexVal c with
        | some d => if d < b then go rest (acc * b + d) else none
        | none => none

/-- Parse the decimal part of ECMAScript `StrDecimalLiteral` after the
optional sign: `Infinity`, or `digits [. digits] [exp]`, or `. digits
[exp]`.  Returns the value; `none` when the whole list is not such a
literal. -/
def strDecimal (l : List Char) : Option JSNum :=
  match l with
  | 'I' :: 'n' :: 'f' :: 'i' :: 'n' :: 'i' :: 't' :: 'y' :: [] => some (.inf true)
  | _ =>
    let (ip, r1) := takeDigits l
    match r1 with
    | '.' :: r2 =>
        let (fp, r3) := takeDigits r2
        if ip = [] ∧ fp = [] then none
        else (strExp r3).map fun e => .fin (applyExp (decVal ip fp) e)
    | _ =>
        if ip = [] then none
        else (strExp r1).map fun e => .fin (applyExp (decVal ip []) e)
where
  /-- mantissa value of integer digits `ip` and fraction digits `fp` (the
  fraction-free case is kept arithmetic-free) -/
  decVal (ip fp : List Char) : ℚ :=
    if fp = [] then (digitsVal ip : ℚ)
    else (digitsVal ip : ℚ) + (digitsVal fp : ℚ) / ((10 : ℚ) ^ fp.length)
  /-- optional exponent part, which must reach the end of the input -/
  strExp : List Char → Option Int
    | [] => some 0
    | 'e' :: r => strExpTail r
    | 'E' :: r => strExpTail r
    | _ => none
  strExpTail : List Char → Option Int
    | '+' :: r => strExpDigits r
    | '-' :: r => (strExpDigits r).map Neg.neg
    | r => strExpDigits r
  strExpDigits (r : List Char) : Option Int :=
    match takeDigits r with
    | ([], _) => none
    | (ds, []) => some (digitsVal ds)
    | (_, _ :: _) => none
  applyExp (q : ℚ) (e : Int) : ℚ :=
    if e = 0 then q
    else if 0 ≤ e then q * (10 : ℚ) ^ e.toNat else q / (10 : ℚ) ^ (-e).toNat

/-- ECMAScript StringToNumber, as performed by `Number(aString)`: trim,
empty means 0, a non-decimal `0x`/`0o`/`0b` literal (no sign allowed), or a
signed decimal literal; anything else is NaN. -/
def strToNumber (s : String) : JSNum :=
  match jsTrimList s.data with
  | [] => .fin 0
  | '0' :: 'x' :: r => hexCase 16 r
  | '0' :: 'X' :: r => hexCase 16 r
  | '0' :: 'o' :: r => hexCase 8 r
  | '0' :: 'O' :: r => hexCase 8 r
  | '0' :: 'b' :: r => hexCase 2 r
  | '0' :: 'B' :: r => hexCase 2 r
  | '+' :: r => (strDecimal r).getD .nan
  | '-' :: r => negNum ((strDecimal r).getD .nan)
  | l => (strDecimal l).getD .nan
where
  hexCase (b : Nat) (r : List Char) : JSNum :=
    match radixVal b r with
    | some n => .fin n
    | none => .nan
  negNum : JSNum → JSNum
    | .nan => .nan
    | .inf b => .inf !b
    | .fin q => .fin (-q)

/-- Fractional decimal digits of `num/den` (`num < den`), up to `fuel`
digits, dropping the trailing zeros.  Exact whenever the expansion
terminates within `fuel` digits, which covers every number the pipeline
can produce; JS exponent display for extreme magnitudes is not modelled. -/
def fracDigits : Nat → Nat → Nat → List Char
  | 0, _, _ => []
  | _, 0, _ => []
  | fuel + 1, num, den =>
      let d := num * 10 / den
      let rest := fracDigits fuel (num * 10 % den) den
      if rest = [] ∧ d = 0 then [] else Char.ofNat (48 + d) :: rest

/-- `String(q)` for a finite JS number (used by `Array.prototype.join`). -/
def ratToStr (q : ℚ) : String :=
  let sign := if q < 0 then "-" else ""
  let n := q.num.natAbs
  let d := q.den
  let ip := natToStr (n / d)
  let fds := fracDigits 40 (n % d) d
  if fds = [] then sign ++ ip else sign ++ ip ++ "." ++ String.mk fds

/-- `String(n)` for a JS number. -/
def numToStr : JSNum → String
  | .nan => "NaN"
  | .inf true => "Infinity"
  | .inf false => "-Infinity"
  | .fin q => ratToStr q

mutual

/-- The string a JS value contributes inside `Array.prototype.join`
(null/undefined become empty, nested arrays join recursively, plain
objects print as `[object Object]`). -/
def joinElemStr : JSValue → String
  | .undef => ""
  | .null => ""
  | .bool b => if b then "true" else "false"
  | .num n => numToStr n
  | .str s => s
  | .arr xs => joinList xs
  | .obj _ => "[object Object]"

/-- `xs.join(",")`, the `toString` of a JS array. -/
def joinList : List JSValue → String
  | [] => ""
  | [x] => joinElemStr x
  | x :: xs => joinElemStr x ++ "," ++ joinList xs

end

/-- The ECMAScript `ToNumber` conversion performed by `Number(v)`:
arrays go through their `toString` (join) and plain objects through
`"[object Object]"`, both then via StringToNumber. -/
def toNumber : JSValue → JSNum
  | .undef => .nan
  | .null => .fin 0
  | .bool b => if b then .fin 1 else .fin 0
  | .num n => n
  | .str s => strToNumber s
  | .arr xs => strToNumber (joinList xs)
  | .obj _ => strToNumber "[object Object]"

/-! ### findBalancedJSON -/

/-- Index of the first occurrence of a character, JS `indexOf` (with
`none` for -1). -/
def firstIdxOf (c : Char) : List Char → Option Nat
  | [] => none
  | x :: rest => if x = c then some 0 else (firstIdxOf c rest).map (· + 1)

/-- Index of the last occurrence of a character, JS `lastIndexOf`. -/
def lastIdxOf (c : Char) (l : List Char) : Option Nat :=
  match firstIdxOf c l.reverse with
  | some j => some (l.length - 1 - j)
  | none => none

/-- The scanning loop of `findBalancedJSON`: remaining input, bracket
stack (head = innermost), inString/stringChar/escaped state, and the count
of characters already consumed; returns the length of the balanced span or
`none` when the input ends first.  A closing bracket seen with an empty
stack returns immediately, exactly as the JS `stack.pop(); if
(stack.length === 0)` sequence does. -/
def fbScan : List Char → List Char → Bool → Char → Bool → Nat → Option Nat
  | [], _, _, _, _, _ => none
  | ch :: rest, stack, inString, sc, esc, cnt =>
      if inString then
        if esc then fbScan rest stack true sc false (cnt + 1)
        else if ch = '\\' then fbScan rest stack true sc true (cnt + 1)
        else if ch = sc then fbScan rest stack false sc false (cnt + 1)
        else fbScan rest stack true sc false (cnt + 1)
      else
        if ch = '"' || ch = '\'' then fbScan rest stack true ch false (cnt + 1)
        else if ch = '{' || ch = '[' then fbScan rest (ch :: stack) false sc false (cnt + 1)
        else if ch = '}' || ch = ']' then
          let stack' := stack.tail
          if stack'.length = 0 then some (cnt + 1)
          else fbScan rest stack' false sc false (cnt + 1)
        else fbScan rest stack false sc false (cnt + 1)

/-- Run the balanced scan from index `k` and slice out the span found. -/
def fbRun (cs : List Char) (k : Nat) : Option String :=
  match fbScan (cs.drop k) [] false '"' false 0 with
  | some len => some (String.mk ((cs.drop k).take len))
  | none => none

/-- `findBalancedJSON` of geminiService.ts: the first balanced `{...}` or
`[...]` span starting at the earliest `{`/`[`, with string literals (single
or double quoted, backslash escapes) treated as opaque. -/
def findBalancedJSON (s : String) : Option String :=
  if s = "" then none
  else
    match firstIdxOf '{' s.data, firstIdxOf '[' s.data with
    | none, none => none
    | some i, none => fbRun s.data i
    | none, some j => fbRun s.data j
    | some i, some j => fbRun s.data (min i j)

/-! ### singleQuotesToDouble -/

/-- Can this character be matched by `.` in a JS regex (everything except
the four line terminators)? -/
def isRegexDot (c : Char) : Bool :=
  !(c = '\n' || c = '\r' || c = '\u2028' || c = '\u2029')

/-- Match the regex group `[^'\\]*(\\.[^'\\]*)*` followed by a closing
`'`: returns the group's characters and the input after the closing quote,
or `none` when no match starts here. -/
def grabGroup : List Char → Option (List Char × List Char)
  | [] => none
  | '\'' :: rest => some ([], rest)
  | '\\' :: c :: rest =>
      if isRegexDot c then
        (grabGroup rest).map (fun p => ('\\' :: c :: p.1, p.2))
      else none
  | ['\\'] => none
  | c :: rest => (grabGroup rest).map (fun p => (c :: p.1, p.2))

/-- `g1.replace(/"/g, '\\"')`: escape the double quotes of a matched
group. -/
def escDq : List Char → List Char
  | [] => []
  | '"' :: rest => '\\' :: '"' :: escDq rest
  | c :: rest => c :: escDq rest

/-- Fuelled scan for `singleQuotesToDouble`: at each single quote try to
match a whole single-quoted literal and rewrite it double-quoted; on
failure the quote is left in place and the scan moves on, as the JS regex
engine does.  Every step consumes at least one character, so fuel
`length + 1` never runs out. -/
def s2dF : Nat → List Char → List Char
  | 0, l => l
  | fuel + 1, l =>
      match l with
      | [] => []
      | '\'' :: rest =>
          match grabGroup rest with
          | some (g, r) => '"' :: (escDq g ++ ('"' :: s2dF fuel r))
          | none => '\'' :: s2dF fuel rest
      | c :: rest => c :: s2dF fuel rest

/-- `singleQuotesToDouble` of geminiService.ts:
`replace(/'([^'\\]*(\\.[^'\\]*)*)'/g, ...)` converting single-quoted
string literals to double-quoted ones. -/
def singleQuotesToDouble (s : String) : String :=
  String.mk (s2dF (s.data.length + 1) s.data)

/-! ### Strict JSON.parse -/

/-- JSON insignificant whitespace. -/
def isJsonWs (c : Char) : Bool :=
  c = ' ' || c = '\t' || c = '\n' || c = '\r'

/-- Characters of a JSON string body after the opening quote: returns the
decoded characters and the input after the closing quote.  Surrogate-pair
recombination of `\u` escapes is not modelled (an invalid scalar decodes
to a default character). -/
def pStrChars : List Char → Option (List Char × List Char)
  | [] => none
  | '"' :: rest => some ([], rest)
  | '\\' :: e :: rest =>
      match e with
      | '"' => (pStrChars rest).map (fun p => ('"' :: p.1, p.2))
      | '\\' => (pStrChars rest).map (fun p => ('\\' :: p.1, p.2))
      | '/' => (pStrChars rest).map (fun p => ('/' :: p.1, p.2))
      | 'b' => (pStrChars rest).map (fun p => ('\x08' :: p.1, p.2))
      | 'f' => (pStrChars rest).map (fun p => ('\x0c' :: p.1, p.2))
      | 'n' => (pStrChars rest).map (fun p => ('\n' :: p.1, p.2))
      | 'r' => (pStrChars rest).map (fun p => ('\r' :: p.1, p.2))
      | 't' => (pStrChars rest).map (fun p => ('\t' :: p.1, p.2))
      | 'u' =>
          match rest with
          | h1 :: h2 :: h3 :: h4 :: rest' =>
              match hexVal h1, hexVal h2, hexVal h3, hexVal h4 with
              | some a, some b, some c, some d =>
                  (pStrChars rest').map
                    (fun p => (Char.ofNat (((a * 16 + b) * 16 + c) * 16 + d) :: p.1, p.2))
              | _, _, _, _ => none
          | _ => none
      | _ => none
  | c :: rest =>
      if c.toNat < 32 then none
      else (pStrChars rest).map (fun p => (c :: p.1, p.2))

/-- Optional JSON exponent part applied to a mantissa. -/
def jsonExpTail (q : ℚ) (l : List Char) : Option (ℚ × List Char) :=
  let p : Bool × List Char :=
    match l with
    | '+' :: r => (false, r)
    | '-' :: r => (true, r)
    | r => (false, r)
  match takeDigits p.2 with
  | ([], _) => none
  | (ds, rest) =>
      let e := digitsVal ds
      some (if p.1 then q / (10 : ℚ) ^ e else q * (10 : ℚ) ^ e, rest)

/-- Exponent part of a JSON number, if present. -/
def jsonExpPart (q : ℚ) (l : List Char) : Option (ℚ × List Char) :=
  match l with
  | 'e' :: r => jsonExpTail q r
  | 'E' :: r => jsonExpTail q r
  | _ => some (q, l)

/-- Fraction and exponent of a JSON number after the integer part. -/
def jsonFracExp (ip : ℚ) (l : List Char) : Option (ℚ × List Char) :=
  match l with
  | '.' :: r =>
      match takeDigits r with
      | ([], _) => none
      | (fds, rest) =>
          jsonExpPart (ip + (digitsVal fds : ℚ) / (10 : ℚ) ^ fds.length) rest
  | _ => jsonExpPart ip l

/-- Unsigned JSON number: `0` or a nonzero-leading digit run, then
fraction/exponent. -/
def pNumCore : List Char → Option (ℚ × List Char)
  | '0' :: r => jsonFracExp 0 r
  | c :: r =>
      if c.isDigit then
        let p := takeDigits (c :: r)
        jsonFracExp (digitsVal p.1) p.2
      else none
  | [] => none

/-- JSON number literal with optional leading minus. -/
def pNumLit : List Char → Option (JSValue × List Char)
  | '-' :: r => (pNumCore r).map (fun p => (.num (.fin (-p.1)), p.2))
  | l => (pNumCore l).map (fun p => (.num (.fin p.1), p.2))

mutual

/-- Strict JSON value parser (fuelled; every recursive call consumes at
least one character first, so the fuel used by `jsonParse` never runs
out). -/
def pVal : Nat → List Char → Option (JSValue × List Char)
  | 0, _ => none
  | fuel + 1, l =>
      match l.dropWhile isJsonWs with
      | '{' :: rest =>
          match rest.dropWhile isJsonWs with
          | '}' :: r' => some (.obj [], r')
          | r => pMembers fuel r []
      | '[' :: rest =>
          match rest.dropWhile isJsonWs with
          | ']' :: r' => some (.arr [], r')
          | r => pElems fuel r []
      | '"' :: rest => (pStrChars rest).map (fun p => (.str (String.mk p.1), p.2))
      | 't' :: 'r' :: 'u' :: 'e' :: rest => some (.bool true, rest)
      | 'f' :: 'a' :: 'l' :: 's' :: 'e' :: rest => some (.bool false, rest)
      | 'n' :: 'u' :: 'l' :: 'l' :: rest => some (.null, rest)
      | l' => pNumLit l'

/-- Members of a JSON object after `{` (at least one member; duplicate
keys overwrite, keeping first position, as in `JSON.parse`). -/
def pMembers : Nat → List Char → List (String × JSValue) →
    Option (JSValue × List Char)
  | 0, _, _ => none
  | fuel + 1, l, acc =>
      match l.dropWhile isJsonWs with
      | '"' :: rest =>
          match pStrChars rest with
          | none => none
          | some (kcs, r1) =>
              match r1.dropWhile isJsonWs with
              | ':' :: r2 =>
                  match pVal fuel r2 with
                  | none => none
                  | some (v, r3) =>
                      let acc' := objSet (String.mk kcs) v acc
                      match r3.dropWhile isJsonWs with
                      | ',' :: r4 => pMembers fuel r4 acc'
                      | '}' :: r4 => some (.obj acc', r4)
                      | _ => none
              | _ => none
      | _ => none

/-- Elements of a JSON array after `[` (at least one element). -/
def pElems : Nat → List Char → List JSValue → Option (JSValue × List Char)
  | 0, _, _ => none
  | fuel + 1, l, acc =>
      match pVal fuel l with
      | none => none
      | some (v, r1) =>
          match r1.dropWhile isJsonWs with
          | ',' :: r2 => pElems fuel r2 (v :: acc)
          | ']' :: r2 => some (.arr (v :: acc).reverse, r2)
          | _ => none

end

/-- Model of strict `JSON.parse`: parse one value, then only whitespace
may remain (numbers are exact rationals rather than rounded doubles). -/
def jsonParse (s : String) : Option JSValue :=
  match pVal (2 * s.data.length + 2) s.data with
  | some (v, rest) => if rest.dropWhile isJsonWs = [] then some v else none
  | none => none

/-! ### Marker and greedy extraction, and safeParseModelJson -/

/-- Index of the first occurrence of the pattern `p`, JS
`String.prototype.indexOf`. -/
def findSub (p : List Char) : List Char → Option Nat
  | [] => if p = [] then some 0 else none
  | x :: rest =>
      if p.isPrefixOf (x :: rest) then some 0
      else (findSub p rest).map (· + 1)

/-- JS `String.prototype.includes`. -/
def containsSub (p l : List Char) : Bool := (findSub p l).isSome

/-- Fuelled splitting on a literal non-empty separator, JS
`String.prototype.split`; fuel `length + 1` never runs out. -/
def splitGo (p : List Char) : Nat → List Char → List (List Char)
  | 0, l => [l]
  | fuel + 1, l =>
      match findSub p l with
      | none => [l]
      | some i => l.take i :: splitGo p fuel (l.drop (i + p.length))

/-- JS `s.split(sep)` for a non-empty literal separator. -/
def splitOnSub (p l : List Char) : List (List Char) := splitGo p (l.length + 1) l

/-- The start sentinel the prompt asks the model to emit. -/
def startMarker : String := "###JSON_START###"

/-- The end sentinel the prompt asks the model to emit. -/
def endMarker : String := "###JSON_END###"

/-- The marker-extraction step of `safeParseModelJson`:
`content.split(startMarker)[1]?.split(endMarker)[0]`, kept when truthy,
then trimmed (`between.trim()`). -/
def markerExtract (content : String) : Option String :=
  let cs := content.data
  if containsSub startMarker.data cs && containsSub endMarker.data cs then
    match (splitOnSub startMarker.data cs).get? 1 with
    | none => none
    | some part =>
        let between :=
          match splitOnSub endMarker.data part with
          | b :: _ => b
          | [] => part
        if between = [] then none else some (jsTrim (String.mk between))
  else none

/-- The candidate string strategy 2 hands to `JSON.parse`: the marker
extraction with trailing commas removed. -/
def markerCleaned (content : String) : Option String :=
  (markerExtract content).map removeTrailingCommas

/-- The greedy regex match from the first `o` to the last `c`
(`content.match(/\{[\s\S]*\}/)` for `o = '{'`, `c = '}'`). -/
def greedySub (o c : Char) (content : String) : Option String :=
  let cs := content.data
  match firstIdxOf o cs, lastIdxOf c cs with
  | some i, some j =>
      if i < j then some (String.mk ((cs.drop i).take (j - i + 1))) else none
  | _, _ => none

/-- The repair-and-parse attempt shared by strategies 3, 4 and 5: remove
trailing commas and strict-parse; on failure, convert single quotes to
double quotes, remove trailing commas again, and strict-parse. -/
def tryTwo (candidate : String) : Option JSValue :=
  match jsonParse (removeTrailingCommas candidate) with
  | some v => some v
  | none =>
      jsonParse (removeTrailingCommas (singleQuotesToDouble
        (removeTrailingCommas candidate)))

/-- The error message thrown when every strategy fails: a fixed prefix
plus the first 2000 characters of the input. -/
def parseFailMsg (content : String) : String :=
  "无法解析模型返回的 JSON（尝试多种修复均失败）。返回内容（前 2000 字）:\n" ++
    content.take 2000

/-- Strategy 5 of `safeParseModelJson`: greedy `[...]` substring. -/
def stage5 (content : String) : Except String JSValue :=
  match greedySub '[' ']' content with
  | some sub =>
      match tryTwo sub with
      | some v => .ok v
      | none => .error (parseFailMsg content)
  | none => .error (parseFailMsg content)

/-- Strategy 4 of `safeParseModelJson`: greedy `{...}` substring. -/
def stage4 (content : String) : Except String JSValue :=
  match greedySub '{' '}' content with
  | some sub =>
      match tryTwo sub with
      | some v => .ok v
      | none => stage5 content
  | none => stage5 content

/-- Strategy 3 of `safeParseModelJson`: first balanced block. -/
def stage3 (content : String) : Except String JSValue :=
  match findBalancedJSON content with
  | some block =>
      match tryTwo block with
      | some v => .ok v
      | none => stage4 content
  | none => stage4 content

/-- `safeParseModelJson` of geminiService.ts: direct parse, marker
extraction, balanced block, greedy braces, greedy brackets; the first
successful strict parse is returned and the error is raised only after
all attempts fail. -/
def safeParseModelJson (content : String) : Except String JSValue :=
  match jsonParse content with
  | some v => .ok v
  | none =>
      match markerCleaned content with
      | some cleaned =>
          match jsonParse cleaned with
          | some v => .ok v
          | none => stage3 content
      | none => stage3 content

/-! ### validateLifeDestinyData -/

/-- `validateLifeDestinyData` of geminiService.ts: non-falsy input,
`chartPoints || chartData` a non-empty array, `analysis` a truthy object,
`analysis.bazi` an array of length at least 4. -/
def validateLifeDestinyData (data : JSValue) : Bool :=
  if !data.truthy then false
  else
    let chart := JSValue.jsOr (getProp data "chartPoints") (getProp data "chartData")
    let analysis := getProp data "analysis"
    match chart with
    | .arr xs =>
        if xs.length = 0 then false
        else if !analysis.truthy || !analysis.typeofObject then false
        else
          match getProp analysis "bazi" with
          | .arr bs => decide (4 ≤ bs.length)
          | _ => false
    | _ => false

/-! ### normalizeParsedData -/

/-- `v === undefined`. -/
def isUndef : JSValue → Bool
  | .undef => true
  | _ => false

/-- The alias priority list for chart data. -/
def chartAliases : List String :=
  ["chartData", "chartPoints", "chart", "points", "kline", "chart_data",
   "chart_points"]

/-- The top-level alias loop: the first alias bound to a defined value
(`null` when none is, matching the `let chart: any = null` initialiser). -/
def firstAliasVal (d : List (String × JSValue)) : List String → JSValue
  | [] => .null
  | a :: rest =>
      match lookupProp d a with
      | .undef => firstAliasVal d rest
      | v => v

/-- The nested alias loop under `result`: the first alias with a defined
property value, if any. -/
def firstAliasProp (r : JSValue) : List String → Option JSValue
  | [] => none
  | a :: rest =>
      match getProp r a with
      | .undef => firstAliasProp r rest
      | v => some v

/-- The chart value after both alias probes of `normalizeParsedData`
(top level, then under `result` when the first probe produced a falsy
value). -/
def resolveChart0 (d : List (String × JSValue)) : JSValue :=
  let c1 := firstAliasVal d chartAliases
  if c1.truthy then c1
  else
    let r := lookupProp d "result"
    if r.truthy && r.typeofObject then
      match firstAliasProp r chartAliases with
      | some v => v
      | none => c1
    else c1

/-- The chart value after the alias probes and the stringified-chart
recovery (`JSON.parse(removeTrailingCommas(chart))`, then
`findBalancedJSON`, else `null`). -/
def resolveChartFull (d : List (String × JSValue)) : JSValue :=
  match resolveChart0 d with
  | .str s =>
      match jsonParse (removeTrailingCommas s) with
      | some v => v
      | none =>
          match findBalancedJSON s with
          | some blk =>
              match jsonParse (removeTrailingCommas blk) with
              | some v => v
              | none => .null
          | none => .null
  | c => c

/-- The fields a chart element contributes to `normalized = {...item}`,
after the attempted `JSON.parse` of a string element. -/
def preFields (item0 : JSValue) : List (String × JSValue) :=
  spreadFields
    (match item0 with
     | .str s =>
         match jsonParse s with
         | some v => v
         | none => item0
     | _ => item0)

/-- `Number(v) || fb`. -/
def convNum (v fb : JSValue) : JSValue := JSValue.jsOr (.num (toNumber v)) fb

/-- One numeric-field coercion of `normalizeParsedData`'s element map:
when the field is present, replace it by `Number(v) || fallback`, where
the fallback may read the fields as they stand at this step. -/
def numFieldStep (f : String) (fb : List (String × JSValue) → JSValue)
    (m : List (String × JSValue)) : List (String × JSValue) :=
  match lookupProp m f with
  | .undef => m
  | v => objSet f (convNum v (fb m)) m

/-- The constant fallback 0 used for `age`, `open`, `close`, `score`. -/
def zeroFb (_ : List (String × JSValue)) : JSValue := .num (.fin 0)

/-- The fallback chain of `high` and `low`:
`normalized.open || normalized.close || 0`, read at this step (so `open`
and `close` are already coerced). -/
def hlFb (m : List (String × JSValue)) : JSValue :=
  JSValue.jsOr (lookupProp m "open")
    (JSValue.jsOr (lookupProp m "close") (.num (.fin 0)))

/-- The `ganZhi` default: when both `ganZhi` and `yang` are undefined,
set `ganZhi = normalized.ganZhi || ''`. -/
def ganZhiStep (m : List (String × JSValue)) : List (String × JSValue) :=
  if isUndef (lookupProp m "ganZhi") && isUndef (lookupProp m "yang") then
    objSet "ganZhi" (JSValue.jsOr (lookupProp m "ganZhi") (.str "")) m
  else m

/-- The `reason` default:
`normalized.reason = normalized.reason || (typeof normalized.reason ===
'string' ? normalized.reason : '')`. -/
def reasonStep (m : List (String × JSValue)) : List (String × JSValue) :=
  objSet "reason"
    (JSValue.jsOr (lookupProp m "reason")
      (if (lookupProp m "reason").isStr then lookupProp m "reason" else .str ""))
    m

/-- The fields of a normalized chart element: numeric coercion with
fallbacks for each of the fields `age`, `year`, `open`, `close`, `high`,
`low`, `score` that is present (in that order), then the `ganZhi` and
`reason` defaults. -/
def normItemFields (y : ℚ) (item0 : JSValue) : List (String × JSValue) :=
  reasonStep (ganZhiStep
    (numFieldStep "score" zeroFb
      (numFieldStep "low" hlFb
        (numFieldStep "high" hlFb
          (numFieldStep "close" zeroFb
            (numFieldStep "open" zeroFb
              (numFieldStep "year" (fun _ => .num (.fin y))
                (numFieldStep "age" zeroFb (preFields item0)))))))))

/-- The per-element normalization of `normalizeParsedData`'s
`chart.map(...)`. -/
def normItem (y : ℚ) (item0 : JSValue) : JSValue :=
  .obj (normItemFields y item0)

/-- The chart-mapping phase: when the resolved chart is an array, write
the canonical `chartData` with every element normalized. -/
def chartPhase (y : ℚ) (d : List (String × JSValue)) : List (String × JSValue) :=
  match resolveChartFull d with
  | .arr items => objSet "chartData" (.arr (items.map (normItem y))) d
  | _ => d

/-- The `analysis.bazi` phase: split a textual `bazi`, wrap a defined
non-array non-string `bazi` as a singleton array.  The JS guard
`data.analysis && typeof data.analysis === 'object'` lets exactly objects
and arrays through; an array reads `bazi` as undefined and is a no-op, so
only the object case acts. -/
def baziStep (d : List (String × JSValue)) : List (String × JSValue) :=
  match lookupProp d "analysis" with
  | .obj am =>
      match lookupProp am "bazi" with
      | .str s =>
          objSet "analysis"
            (.obj (objSet "bazi" (.arr ((baziTokens s).map JSValue.str)) am)) d
      | .undef => d
      | .arr _ => d
      | b => objSet "analysis" (.obj (objSet "bazi" (.arr [b]) am)) d
  | _ => d

/-- The last-resort probe
`raw.chart || raw.points || raw.kline || (raw.result && (raw.result.chart
|| raw.result.points))`. -/
def wrapProbe (raw : JSValue) : JSValue :=
  JSValue.jsOr (getProp raw "chart")
    (JSValue.jsOr (getProp raw "points")
      (JSValue.jsOr (getProp raw "kline")
        (JSValue.jsAnd (getProp raw "result")
          (JSValue.jsOr (getProp (getProp raw "result") "chart")
            (getProp (getProp raw "result") "points")))))

/-- The last-resort wrap: when no array `chartData` was produced, probe
`wrapProbe` and — under the JS `if (maybe)` truthiness guard — use an
array directly and wrap an object as a singleton; every other probe result
(falsy, or truthy with `typeof` not `'object'`) leaves the data alone, as
the match below does. -/
def wrapStep (raw : JSValue) (d : List (String × JSValue)) :
    List (String × JSValue) :=
  if (lookupProp d "chartData").isArr then d
  else
    match wrapProbe raw with
    | .arr xs => objSet "chartData" (.arr xs) d
    | .obj f => objSet "chartData" (.arr [.obj f]) d
    | _ => d

/-- `normalizeParsedData` of geminiService.ts.  `y` is the calendar year
read from `new Date().getFullYear()` at call time — the only external
state the function consults.  Falsy and non-object input is returned
unchanged; arrays pass the `typeof === 'object'` guard and are spread
into index-keyed fields by `{...raw}`. -/
def normalizeParsedData (y : ℚ) (raw : JSValue) : JSValue :=
  match raw with
  | .arr xs => .obj (wrapStep raw (baziStep (chartPhase y (idxFrom 0 xs))))
  | .obj m => .obj (wrapStep raw (baziStep (chartPhase y m)))
  | v => v

/-- The parse-then-normalize pipeline applied to a completion text, as
`generateLifeAnalysis` runs it. -/
def pipeline (y : ℚ) (content : String) : Except String JSValue :=
  (safeParseModelJson content).map (normalizeParsedData y)

/-! ### Observers and claim-side definitions -/

/-- Remove every binding of a key (observer used to compare values up to
their `year` fields). -/
def eraseKey (k : String) (m : List (String × JSValue)) :
    List (String × JSValue) :=
  m.filter (fun p => p.1 ≠ k)

/-- Forget the `year` field of a chart element. -/
def stripYearEl : JSValue → JSValue
  | .obj f => .obj (eraseKey "year" f)
  | v => v

/-- Forget the `year` fields of a chart array's elements. -/
def stripYearArr : JSValue → JSValue
  | .arr xs => .arr (xs.map stripYearEl)
  | v => v

/-- Forget the `year` fields inside the `chartData` entries of a
normalized result. -/
def stripYear : JSValue → JSValue
  | .obj m =>
      .obj (m.map (fun p =>
        if p.1 = "chartData" then (p.1, stripYearArr p.2) else p))
  | v => v

/-- Claim C1, amended acceptance condition, written from the amended
wording: the input is truthy; the chart field — `chartPoints` when truthy,
otherwise `chartData` — is a non-empty sequence; `analysis` is a truthy
object whose `bazi` is a sequence of length at least 4. -/
def acceptsAmendedC1 (d : JSValue) : Bool :=
  d.truthy &&
  (let chart :=
     if (getProp d "chartPoints").truthy then getProp d "chartPoints"
     else getProp d "chartData"
   match chart with
   | .arr xs => decide (xs.length ≠ 0)
   | _ => false) &&
  (let a := getProp d "analysis"
   a.truthy && a.typeofObject &&
   (match getProp a "bazi" with
    | .arr bs => decide (4 ≤ bs.length)
    | _ => false))

/-- The repair sequence a candidate span goes through: trailing-comma
removal, and on parse failure additionally quote normalization followed by
trailing-comma removal again. -/
def repairPair (b : String) : List String :=
  [removeTrailingCommas b,
   removeTrailingCommas (singleQuotesToDouble (removeTrailingCommas b))]

/-- The candidates an optional extracted span contributes. -/
def optCands : Option String → List String
  | some b => repairPair b
  | none => []

/-- Claim C2's strategy list: the candidate texts handed to the strict
parser, in the fixed order the claim states — (1) the unmodified text, (2)
the marker extraction trimmed and comma-repaired, (3) the balanced block
comma-repaired, then with quote normalization, (4) the greedy `{...}`
substring with the same repair sequence, (5) the greedy `[...]`
substring likewise. -/
def claimCandidates (content : String) : List String :=
  [content] ++
  (markerCleaned content).toList ++
  optCands (findBalancedJSON content) ++
  optCands (greedySub '{' '}' content) ++
  optCands (greedySub '[' ']' content)

/-- Claim C4's extraction contract, written from the claim's wording: the
substring strictly between the first occurrence of the start sentinel and
the first subsequent occurrence of the end sentinel, trimmed; `none` when
either sentinel is absent or the end sentinel does not occur after the
start sentinel. -/
def claimMarkerSpec (content : String) : Option String :=
  let cs := content.data
  match findSub startMarker.data cs with
  | none => none
  | some i =>
      let after := cs.drop (i + startMarker.data.length)
      match findSub endMarker.data after with
      | none => none
      | some j => some (jsTrim (String.mk (after.take j)))

/-- Truncate a character list at the first occurrence of the pattern `p`,
when present. -/
def cutAt (p l : List Char) : List Char :=
  match findSub p l with
  | some k => l.take k
  | none => l

/-- Claim C4, amended: when both sentinels occur anywhere in the text, the
candidate is the text after the first start sentinel, truncated at the
next start sentinel (if any), then truncated at the first end sentinel
within that, and trimmed; no candidate when either sentinel is absent or
that substring is empty. -/
def amendedMarkerSpec (content : String) : Option String :=
  let cs := content.data
  if containsSub startMarker.data cs && containsSub endMarker.data cs then
    match findSub startMarker.data cs with
    | none => none
    | some i =>
        let after := cs.drop (i + startMarker.data.length)
        let between := cutAt endMarker.data (cutAt startMarker.data after)
        if between = [] then none else some (jsTrim (String.mk between))
  else none

/-- The converted value of a numeric chart field for the fallback chain of
`high`/`low`: `undefined` when absent, otherwise `Number(v) || 0`. -/
def convField (m0 : List (String × JSValue)) (f : String) : JSValue :=
  match lookupProp m0 f with
  | .undef => .undef
  | v => convNum v (.num (.fin 0))

/-- Claim C3, amended per-field contract over the element's spread fields
`m0`: an absent field stays absent; a present field becomes its number
conversion when truthy, else the documented fallback (`age`, `open`,
`close`, `score` → 0; `year` → the current calendar year; `high`/`low` →
converted `open` when truthy, else converted `close` when truthy, else
0). -/
def claimFieldC3 (y : ℚ) (m0 : List (String × JSValue)) : String → JSValue
  | "age" => convField m0 "age"
  | "open" => convField m0 "open"
  | "close" => convField m0 "close"
  | "score" => convField m0 "score"
  | "year" =>
      match lookupProp m0 "year" with
      | .undef => .undef
      | v => convNum v (.num (.fin y))
  | "high" =>
      match lookupProp m0 "high" with
      | .undef => .undef
      | v =>
          convNum v (JSValue.jsOr (convField m0 "open")
            (JSValue.jsOr (convField m0 "close") (.num (.fin 0))))
  | "low" =>
      match lookupProp m0 "low" with
      | .undef => .undef
      | v =>
          convNum v (JSValue.jsOr (convField m0 "open")
            (JSValue.jsOr (convField m0 "close") (.num (.fin 0))))
  | _ => JSValue.undef

/-- The seven numeric chart fields of claim C3. -/
def numFieldsC3 : List String :=
  ["age", "year", "open", "close", "high", "low", "score"]

mutual

/-- Claim C8's tokenization, written from the claim's wording: the
maximal runs of non-separator characters (skipping state). -/
def tokensSkip : List Char → List String
  | [] => []
  | x :: rest =>
      if isBaziSep x then tokensSkip rest else tokensIn [x] rest

/-- Claim C8's tokenization: accumulating a run (in reverse). -/
def tokensIn (cur : List Char) : List Char → List String
  | [] => [String.mk cur.reverse]
  | x :: rest =>
      if isBaziSep x then String.mk cur.reverse :: tokensSkip rest
      else tokensIn (x :: cur) rest

end

/-- Claim C8's tokenization of a textual `bazi`. -/
def tokensOf (s : String) : List String := tokensSkip s.data

/-- Pointwise relation on object entries: equal keys, equal values except
that `chartData` values only need to agree after forgetting `year`
fields.  Used to show two normalizations at different calendar years
agree up to `year`. -/
def chartAgree (p q : String × JSValue) : Prop :=
  p.1 = q.1 ∧
    (if p.1 = "chartData" then stripYearArr p.2 = stripYearArr q.2
     else p.2 = q.2)

/-- Pointwise relation on object entries: equal keys, equal values except
at key `year`.  Used inside a single chart element. -/
def yearAgree (p q : String × JSValue) : Prop :=
  p.1 = q.1 ∧ (p.1 ≠ "year" → p.2 = q.2)

/-! ### Concrete inputs used by counterexamples and witnesses -/

/-- A value whose `chartData` is a non-empty sequence and whose
`analysis` is a mapping with a 4-pillar `bazi`, but whose `chartPoints`
is text. -/
def c1ex : JSValue :=
  .obj [("chartData", .arr [.num (.fin 1)]), ("chartPoints", .str "x"),
        ("analysis", .obj [("bazi",
          .arr [.str "甲", .str "乙", .str "丙", .str "丁"])])]

/-- A mapping whose chart resolves to a one-element sequence whose
element has no numeric fields at all. -/
def c3ex : List (String × JSValue) := [("chartData", .arr [.obj []])]

/-- A text where the end sentinel occurs only before the start sentinel,
with a decoy JSON object in front. -/
def c4content : String :=
  "\x7b\"b\":2\x7d ###JSON_END### ###JSON_START### \x7b\"a\":1\x7d"

/-- An `analysis` object with a textual 4-pillar `bazi`. -/
def c8am : List (String × JSValue) := [("bazi", .str "甲子，乙丑 丙寅,丁卯")]

/-- A mapping carrying `c8am` as its `analysis`. -/
def c8m : List (String × JSValue) := [("analysis", .obj c8am)]

/-- A completion text whose chart element has a year that does not
convert to a truthy number, so the current-year fallback fires. -/
def c9content : String := "\x7b\"chartData\":[\x7b\"year\":\"x\"\x7d]\x7d"

/-! ## Theorems -/

theorem lookupProp_objSet_self (k : String) (v : JSValue)
    (m : List (String × JSValue)) : lookupProp (objSet k v m) k = v := by
  induction m with
  | nil => simp [objSet, lookupProp]
  | cons p rest ih =>
      obtain ⟨k', v'⟩ := p
      by_cases h : k' = k <;> simp [objSet, lookupProp, h, ih]

theorem lookupProp_objSet_ne {k k' : String} (h : k' ≠ k) (v : JSValue)
    (m : List (String × JSValue)) :
    lookupProp (objSet k v m) k' = lookupProp m k' := by
  induction m with
  | nil => simp [objSet, lookupProp, Ne.symm h]
  | cons p rest ih =>
      obtain ⟨k'', v''⟩ := p
      by_cases hk : k'' = k
      · subst hk
        simp [objSet, lookupProp, Ne.symm h]
      · simp [objSet, lookupProp, hk, ih]

theorem lookupProp_chartPhase_ne (y : ℚ) (d : List (String × JSValue))
    {k : String} (h : k ≠ "chartData") :
    lookupProp (chartPhase y d) k = lookupProp d k := by
  unfold chartPhase
  split <;> simp [lookupProp_objSet_ne h]

theorem lookupProp_baziStep_ne (d : List (String × JSValue)) {k : String}
    (h : k ≠ "analysis") : lookupProp (baziStep d) k = lookupProp d k := by
  unfold baziStep
  split
  · split <;> simp [lookupProp_objSet_ne h]
  · rfl

theorem lookupProp_wrapStep_ne (raw : JSValue) (d : List (String × JSValue))
    {k : String} (h : k ≠ "chartData") :
    lookupProp (wrapStep raw d) k = lookupProp d k := by
  unfold wrapStep
  split
  · rfl
  · split <;> simp [lookupProp_objSet_ne h]

/-- Claim C10: normalization writes only `chartData` and (inside)
`analysis`; every other top-level key of a mapping keeps exactly the value
it had in the input. -/
theorem c10_frame (y : ℚ) (m : List (String × JSValue)) (k : String)
    (h1 : k ≠ "chartData") (h2 : k ≠ "analysis") :
    getProp (normalizeParsedData y (.obj m)) k = lookupProp m k := by
  show lookupProp (wrapStep (.obj m) (baziStep (chartPhase y m))) k = _
  rw [lookupProp_wrapStep_ne _ _ h1, lookupProp_baziStep_ne _ h2,
    lookupProp_chartPhase_ne _ _ h1]

/-- Witness for C10 at a concrete mapping and key. -/
theorem c10_frame_witness :
    (("foo" : String) ≠ "chartData" ∧ ("foo" : String) ≠ "analysis") ∧
    getProp (normalizeParsedData 0 (.obj [("foo", .num (.fin 7))])) "foo" =
      lookupProp [("foo", .num (.fin 7))] "foo" :=
  ⟨⟨by decide, by decide⟩, c10_frame 0 _ "foo" (by decide) (by decide)⟩

/-- Counterexample to claim C1 as stated: `c1ex` has a non-empty
`chartData` sequence and an `analysis` mapping with a 4-element `bazi`
sequence, yet the validator rejects it, because its text-valued
`chartPoints` shadows `chartData` in `data.chartPoints || data.chartData`. -/
theorem c1_counterexample :
    getProp c1ex "chartData" = .arr [.num (.fin 1)] ∧
    getProp (getProp c1ex "analysis") "bazi" =
      .arr [.str "甲", .str "乙", .str "丙", .str "丁"] ∧
    getProp c1ex "chartPoints" = .str "x" ∧
    validateLifeDestinyData c1ex = false :=
  ⟨rfl, rfl, rfl, rfl⟩

/-- Claim C1, amended: the validator accepts exactly the truthy values
whose chart field — `chartPoints` when truthy, otherwise `chartData` — is
a non-empty sequence, with a truthy object `analysis` whose `bazi` is a
sequence of length at least 4. -/
theorem c1_validator_iff (d : JSValue) :
    validateLifeDestinyData d = acceptsAmendedC1 d := by
  unfold validateLifeDestinyData acceptsAmendedC1 JSValue.jsOr
  cases h : d.truthy
  · simp [h]
  · simp only [h, Bool.not_true, Bool.false_eq_true, if_false, Bool.true_and]
    split
    · rename_i xs heq
      by_cases hl : xs.length = 0
      · simp [hl]
      · simp only [hl, if_false]
        cases ha : (getProp d "analysis").truthy
        · simp [ha]
        · cases ht : (getProp d "analysis").typeofObject
          · simp [ha, ht]
          · simp only [ha, ht, Bool.not_true, Bool.or_self, Bool.false_eq_true,
              if_false, Bool.true_and]
            split <;> simp [hl]
    · simp

theorem digitChar_isDigit (k : Nat) (h : k < 10) :
    (Char.ofNat (48 + k)).isDigit = true := by
  interval_cases k <;> decide

theorem natDigits_isDigit :
    ∀ fuel n, ∀ c ∈ natDigits fuel n, c.isDigit = true := by
  intro fuel
  induction fuel with
  | zero => intro n c h; simp [natDigits] at h
  | succ f ih =>
      intro n c h
      unfold natDigits at h
      by_cases hn : n < 10
      · simp only [hn, if_true, List.mem_singleton] at h
        subst h
        exact digitChar_isDigit n hn
      · simp only [hn, if_false, List.mem_append, List.mem_singleton] at h
        rcases h with h | h
        · exact ih _ c h
        · subst h
          exact digitChar_isDigit (n % 10) (Nat.mod_lt _ (by decide))

theorem natToStr_ne {k : String}
    (hk : k.data.any (fun c => !c.isDigit) = true) (i : Nat) :
    natToStr i ≠ k := by
  intro he
  rcases List.any_eq_true.mp hk with ⟨c, hc, hcd⟩
  rw [← he] at hc
  have : c.isDigit = true := natDigits_isDigit (i + 1) i c hc
  simp [this] at hcd

theorem lookupProp_idxFrom_undef {k : String}
    (hk : k.data.any (fun c => !c.isDigit) = true) :
    ∀ i xs, lookupProp (idxFrom i xs) k = .undef := by
  intro i xs
  induction xs generalizing i with
  | nil => rfl
  | cons x xs ih =>
      simp only [idxFrom, lookupProp]
      rw [if_neg (natToStr_ne hk i)]
      exact ih (i + 1)

/-- Counterexample to claim C6 as stated: an ordered sequence is not
returned unchanged — it is spread into an index-keyed mapping, because
`typeof` of an array is `'object'` and `{...raw}` turns it into a plain
object. -/
theorem c6_counterexample :
    normalizeParsedData 0 (.arr [.num (.fin 1)]) = .obj [("0", .num (.fin 1))] ∧
    JSValue.obj [("0", .num (.fin 1))] ≠ .arr [.num (.fin 1)] :=
  ⟨rfl, fun h => JSValue.noConfusion h⟩

/-- Claim C6, amended: normalization is a no-op on `null`, `undefined`,
booleans, numbers and text; an ordered sequence, however, is spread into
the mapping with decimal index keys and then normalized as a mapping
(which changes none of its index-keyed fields). -/
theorem c6_nonmapping (y : ℚ) :
    normalizeParsedData y .null = .null ∧
    normalizeParsedData y .undef = .undef ∧
    (∀ b, normalizeParsedData y (.bool b) = .bool b) ∧
    (∀ n, normalizeParsedData y (.num n) = .num n) ∧
    (∀ s, normalizeParsedData y (.str s) = .str s) ∧
    (∀ xs, normalizeParsedData y (.arr xs) = .obj (idxFrom 0 xs)) := by
  refine ⟨rfl, rfl, fun _ => rfl, fun _ => rfl, fun _ => rfl, fun xs => ?_⟩
  have hu : ∀ k : String, k.data.any (fun c => !c.isDigit) = true →
      lookupProp (idxFrom 0 xs) k = .undef :=
    fun k hk => lookupProp_idxFrom_undef hk 0 xs
  have h1 := hu "chartData" (by decide)
  have h2 := hu "chartPoints" (by decide)
  have h3 := hu "chart" (by decide)
  have h4 := hu "points" (by decide)
  have h5 := hu "kline" (by decide)
  have h6 := hu "chart_data" (by decide)
  have h7 := hu "chart_points" (by decide)
  have h8 := hu "result" (by decide)
  have h9 := hu "analysis" (by decide)
  have hres : resolveChart0 (idxFrom 0 xs) = .null := by
    unfold resolveChart0
    simp [chartAliases, firstAliasVal, h1, h2, h3, h4, h5, h6, h7, h8,
      JSValue.truthy]
  have hchart : chartPhase y (idxFrom 0 xs) = idxFrom 0 xs := by
    unfold chartPhase resolveChartFull
    rw [hres]
  have hbazi : baziStep (idxFrom 0 xs) = idxFrom 0 xs := by
    unfold baziStep
    rw [h9]
  have hwrap : wrapStep (.arr xs) (idxFrom 0 xs) = idxFrom 0 xs := by
    unfold wrapStep wrapProbe
    have hgp : ∀ k : String, k ≠ "length" →
        k.data.any (fun c => !c.isDigit) = true →
        getProp (.arr xs) k = .undef := by
      intro k hkl hk
      simp only [getProp]
      rw [if_neg hkl]
      exact lookupProp_idxFrom_undef hk 0 xs
    rw [h1, hgp "chart" (by decide) (by decide),
      hgp "points" (by decide) (by decide),
      hgp "kline" (by decide) (by decide),
      hgp "result" (by decide) (by decide)]
    rfl
  show JSValue.obj (wrapStep (.arr xs) (baziStep (chartPhase y (idxFrom 0 xs)))) =
    .obj (idxFrom 0 xs)
  rw [hchart, hbazi, hwrap]

theorem dropWhile_all_false {p : Char → Bool} :
    ∀ l : List Char, (∀ c ∈ l, p c = false) → l.dropWhile p = l := by
  intro l h
  cases l with
  | nil => rfl
  | cons x xs =>
      simp only [List.dropWhile_cons]
      rw [h x (by simp)]
      simp

theorem jsTrimList_of_noWs {l : List Char}
    (h : ∀ c ∈ l, isJsWs c = false) : jsTrimList l = l := by
  unfold jsTrimList
  rw [dropWhile_all_false l h,
    dropWhile_all_false l.reverse (fun c hc => h c (List.mem_reverse.mp hc)),
    List.reverse_reverse]

theorem mk_eq_empty_iff (l : List Char) : String.mk l = "" ↔ l = [] := by
  constructor
  · intro h
    exact congrArg String.data h
  · intro h
    rw [h]

theorem trimRun_facts (cur : List Char) (hc : cur ≠ [])
    (hns : ∀ c ∈ cur, isBaziSep c = false) :
    jsTrim (String.mk cur.reverse) = String.mk cur.reverse ∧
    String.mk cur.reverse ≠ "" := by
  have hns' : ∀ c ∈ cur.reverse, isJsWs c = false := by
    intro c hcm
    have := hns c (List.mem_reverse.mp hcm)
    unfold isBaziSep at this
    simp only [Bool.or_eq_false_iff] at this
    exact this.2
  refine ⟨?_, ?_⟩
  · unfold jsTrim
    rw [show (String.mk cur.reverse).data = cur.reverse from rfl,
      jsTrimList_of_noWs hns']
  · rw [ne_eq, mk_eq_empty_iff]
    simp [hc]

theorem sepSplit_combined : ∀ l : List Char,
    (((sepSplitSkip l).map (fun t => jsTrim (String.mk t))).filter
        (fun t => t ≠ "") = tokensSkip l) ∧
    (((sepSplitGo [] l).map (fun t => jsTrim (String.mk t))).filter
        (fun t => t ≠ "") = tokensSkip l) ∧
    (∀ cur, cur ≠ [] → (∀ c ∈ cur, isBaziSep c = false) →
      ((sepSplitGo cur l).map (fun t => jsTrim (String.mk t))).filter
        (fun t => t ≠ "") = tokensIn cur l) := by
  intro l
  induction l with
  | nil =>
      refine ⟨rfl, rfl, fun cur hc hns => ?_⟩
      obtain ⟨htrim, hne⟩ := trimRun_facts cur hc hns
      simp only [sepSplitGo, tokensIn, List.map_cons, List.map_nil,
        List.filter_cons, List.filter_nil, htrim]
      simp [hne]
  | cons x rest ih =>
      obtain ⟨ihSkip, ihNil, ihGo⟩ := ih
      by_cases hx : isBaziSep x = true
      · refine ⟨?_, ?_, ?_⟩
        · simp only [sepSplitSkip, hx, if_true, tokensSkip]
          exact ihSkip
        · simp only [sepSplitGo, hx, if_true, tokensSkip, List.map_cons,
            List.filter_cons, List.reverse_nil]
          have h0 : jsTrim (String.mk []) = "" := rfl
          rw [h0]
          simp only [ne_eq, not_true_eq_false, decide_False, if_false]
          exact ihSkip
        · intro cur hc hns
          obtain ⟨htrim, hne⟩ := trimRun_facts cur hc hns
          simp only [sepSplitGo, hx, if_true, tokensIn, List.map_cons,
            List.filter_cons, htrim]
          rw [if_pos (by simp [hne]), ihSkip]
      · have hx' : isBaziSep x = false := by
          cases hxx : isBaziSep x
          · rfl
          · exact absurd hxx hx
        have hx1 : ∀ c ∈ [x], isBaziSep c = false := by
          intro c hcm
          rw [List.mem_singleton.mp hcm]
          exact hx'
        refine ⟨?_, ?_, ?_⟩
        · simp only [sepSplitSkip, hx', if_false, tokensSkip]
          exact ihGo [x] (by simp) hx1
        · simp only [sepSplitGo, hx', if_false, tokensSkip]
          exact ihGo [x] (by simp) hx1
        · intro cur hc hns
          simp only [sepSplitGo, hx', if_false, tokensIn]
          exact ihGo (x :: cur) (by simp)
            (by
              intro c hcm
              rcases List.mem_cons.mp hcm with h | h
              · rw [h]; exact hx'
              · exact hns c h)

/-- The split-trim-filter pipeline of the source equals the claim's
run-based tokenization. -/
theorem baziTokens_eq_tokensOf (s : String) : baziTokens s = tokensOf s :=
  (sepSplit_combined s.data).2.1

/-- Claim C8: a textual `analysis.bazi` is replaced by the sequence of its
maximal runs of non-separator characters (separators: ASCII comma,
full-width comma, whitespace), trimmed with empties dropped; a defined
`bazi` that is neither a sequence nor text is wrapped as a one-element
sequence. -/
theorem c8_bazi (y : ℚ) (m am : List (String × JSValue))
    (h : lookupProp m "analysis" = .obj am) :
    (∀ s, lookupProp am "bazi" = .str s →
      getProp (normalizeParsedData y (.obj m)) "analysis" =
        .obj (objSet "bazi" (.arr ((tokensOf s).map JSValue.str)) am)) ∧
    (∀ b, lookupProp am "bazi" = b → b ≠ .undef → b.isArr = false →
      b.isStr = false →
      getProp (normalizeParsedData y (.obj m)) "analysis" =
        .obj (objSet "bazi" (.arr [b]) am)) := by
  have hup : getProp (normalizeParsedData y (.obj m)) "analysis" =
      lookupProp (baziStep (chartPhase y m)) "analysis" := by
    show lookupProp (wrapStep (.obj m) (baziStep (chartPhase y m))) "analysis" = _
    exact lookupProp_wrapStep_ne _ _ (by decide)
  have hca : lookupProp (chartPhase y m) "analysis" = .obj am := by
    rw [lookupProp_chartPhase_ne _ _ (by decide), h]
  constructor
  · intro s hs
    rw [hup]
    simp only [baziStep, hca, hs, lookupProp_objSet_self,
      baziTokens_eq_tokensOf]
  · intro b hb hbu hba hbs
    rw [hup]
    simp only [baziStep, hca, hb]
    cases b with
    | undef => exact absurd rfl hbu
    | str s => simp [JSValue.isStr] at hbs
    | arr l => simp [JSValue.isArr] at hba
    | null => rw [lookupProp_objSet_self]
    | bool bb => rw [lookupProp_objSet_self]
    | num n => rw [lookupProp_objSet_self]
    | obj f => rw [lookupProp_objSet_self]

/-- Witness for C8 at the spec's own example text (and the wrap case at a
number). -/
theorem c8_bazi_witness :
    lookupProp c8m "analysis" = .obj c8am ∧
    lookupProp c8am "bazi" = .str "甲子，乙丑 丙寅,丁卯" ∧
    getProp (normalizeParsedData 2025 (.obj c8m)) "analysis" =
      .obj [("bazi", .arr [.str "甲子", .str "乙丑", .str "丙寅", .str "丁卯"])] :=
  ⟨rfl, rfl, ((c8_bazi 2025 c8m c8am rfl).1 _ rfl).trans rfl⟩

theorem wsClose_sweep_none {c d : Char} (_hc1 : c ≠ ',')
    (_hc2 : isJsWs c = false) :
    ∀ l, wsClose d l = false → wsClose ',' l = false →
      wsClose d (sweep c false l) = false := by
  intro l
  induction l with
  | nil => intro _ _; rfl
  | cons y t ih =>
      intro h1 h2
      have hy : y ≠ ',' := by
        intro he
        subst he
        simp [wsClose] at h2
      rw [wsClose, Bool.or_eq_false_iff] at h1 h2
      obtain ⟨hyd, hw1⟩ := h1
      obtain ⟨_, hw2⟩ := h2
      have hs : sweep c false (y :: t) = y :: sweep c false t := by
        simp [sweep, hy]
      rw [hs, wsClose, Bool.or_eq_false_iff]
      refine ⟨hyd, ?_⟩
      cases hws : isJsWs y with
      | false => simp
      | true =>
          simp only [hws, Bool.true_and] at hw1 hw2 ⊢
          exact ih hw1 hw2

theorem sweep_noMatch {c d : Char} (hc1 : c ≠ ',') (hc2 : isJsWs c = false) :
    ∀ l, (hasMatch ',' l = false →
        (d = c ∨ hasMatch d l = false) →
        hasMatch d (sweep c false l) = false) ∧
      (wsClose c l = true → hasMatch ',' l = false →
        (d = c ∨ hasMatch d l = false) →
        hasMatch d (sweep c true l) = false) := by
  intro l
  induction l with
  | nil => exact ⟨fun _ _ => rfl, fun _ _ _ => rfl⟩
  | cons y t ih =>
      obtain ⟨ihF, ihT⟩ := ih
      constructor
      · intro hDC hd
        rw [hasMatch, Bool.or_eq_false_iff] at hDC
        obtain ⟨hDC1, hDCt⟩ := hDC
        have hdt : d = c ∨ hasMatch d t = false := by
          rcases hd with h | h
          · exact Or.inl h
          · rw [hasMatch, Bool.or_eq_false_iff] at h
            exact Or.inr h.2
        by_cases hy : y = ','
        · subst hy
          have hwct : wsClose ',' t = false := by simpa using hDC1
          by_cases hw : wsClose c t = true
          · have hs : sweep c false (',' :: t) = sweep c true t := by
              simp [sweep, hw]
            rw [hs]
            exact ihT hw hDCt hdt
          · have hw' : wsClose c t = false := Bool.eq_false_iff.mpr hw
            have hs : sweep c false (',' :: t) = ',' :: sweep c false t := by
              simp [sweep, hw']
            rw [hs, hasMatch, Bool.or_eq_false_iff]
            constructor
            · have hwd : wsClose d t = false := by
                rcases hd with h | h
                · rw [h]; exact hw'
                · rw [hasMatch, Bool.or_eq_false_iff] at h
                  simpa using h.1
              simp [wsClose_sweep_none hc1 hc2 t hwd hwct]
            · exact ihF hDCt hdt
        · have hs : sweep c false (y :: t) = y :: sweep c false t := by
            simp [sweep, hy]
          rw [hs, hasMatch, Bool.or_eq_false_iff]
          refine ⟨by simp [hy], ihF hDCt hdt⟩
      · intro hW hDC hd
        have hDCt : hasMatch ',' t = false := by
          rw [hasMatch, Bool.or_eq_false_iff] at hDC
          exact hDC.2
        have hdt : d = c ∨ hasMatch d t = false := by
          rcases hd with h | h
          · exact Or.inl h
          · rw [hasMatch, Bool.or_eq_false_iff] at h
            exact Or.inr h.2
        by_cases hyc : y = c
        · subst hyc
          rw [show sweep y true (y :: t) = y :: sweep y false t by simp [sweep]]
          rw [hasMatch, Bool.or_eq_false_iff]
          refine ⟨by simp [hc1], ihF hDCt hdt⟩
        · rw [wsClose] at hW
          have hY : isJsWs y = true ∧ wsClose c t = true := by
            rcases Bool.or_eq_true_iff.mp hW with h | h
            · exact absurd (of_decide_eq_true h) hyc
            · exact Bool.and_eq_true_iff.mp h
          have hs : sweep c true (y :: t) = sweep c true t := by
            simp [sweep, hyc, hY.1]
          rw [hs]
          exact ihT hY.2 hDCt hdt

theorem sweep_of_noMatch {c : Char} :
    ∀ l, hasMatch c l = false → sweep c false l = l := by
  intro l
  induction l with
  | nil => intro _; rfl
  | cons y t ih =>
      intro h
      rw [hasMatch, Bool.or_eq_false_iff] at h
      obtain ⟨h1, h2⟩ := h
      by_cases hy : y = ','
      · subst hy
        have hw : wsClose c t = false := by simpa using h1
        simp [sweep, hw, ih h2]
      · simp [sweep, hy, ih h2]

/-- Counterexample to claim C5 as stated: on `",,}"` one application of
trailing-comma removal yields `",}"` (the regex scan does not revisit the
comma it uncovered), while a second application yields `"}"`. -/
theorem c5_counterexample :
    removeTrailingCommas ",,\x7d" = ",\x7d" ∧
    removeTrailingCommas (removeTrailingCommas ",,\x7d") = "\x7d" ∧
    removeTrailingCommas (removeTrailingCommas ",,\x7d") ≠
      removeTrailingCommas ",,\x7d" :=
  ⟨rfl, rfl, by decide⟩

/-- Claim C5, amended: trailing-comma removal is idempotent on every text
that contains no two commas separated only by whitespace (no match of
`,\s*,`); in general a replacement can uncover a new trailing comma that
only a second pass removes. -/
theorem c5_idempotent (s : String) (h : hasMatch ',' s.data = false) :
    removeTrailingCommas (removeTrailingCommas s) = removeTrailingCommas s := by
  show String.mk (sweep ']' false (sweep '}' false
      (sweep ']' false (sweep '}' false s.data)))) =
    String.mk (sweep ']' false (sweep '}' false s.data))
  have hDCa : hasMatch ',' (sweep '}' false s.data) = false :=
    (sweep_noMatch (by decide) (by decide) s.data).1 h (Or.inr h)
  have hMa : hasMatch '}' (sweep '}' false s.data) = false :=
    (sweep_noMatch (c := '}') (d := '}') (by decide) (by decide) s.data).1 h
      (Or.inl rfl)
  have hMb1 : hasMatch ']' (sweep ']' false (sweep '}' false s.data)) = false :=
    (sweep_noMatch (c := ']') (d := ']') (by decide) (by decide) _).1 hDCa
      (Or.inl rfl)
  have hMb2 : hasMatch '}' (sweep ']' false (sweep '}' false s.data)) = false :=
    (sweep_noMatch (c := ']') (d := '}') (by decide) (by decide) _).1 hDCa
      (Or.inr hMa)
  rw [sweep_of_noMatch _ hMb2, sweep_of_noMatch _ hMb1]

/-- Witness for C5 (amended) on a concrete trailing-comma text. -/
theorem c5_idempotent_witness :
    hasMatch ',' ("\x7b\"a\": 1, \x7d".data) = false ∧
    removeTrailingCommas (removeTrailingCommas "\x7b\"a\": 1, \x7d") =
      removeTrailingCommas "\x7b\"a\": 1, \x7d" :=
  ⟨by decide, c5_idempotent _ (by decide)⟩

theorem fbScan_stringlit :
    ∀ lit : List Char, (∀ c ∈ lit, c ≠ '"' ∧ c ≠ '\\') →
    ∀ rest stack cnt,
      fbScan (lit ++ rest) stack true '"' false cnt =
        fbScan rest stack true '"' false (cnt + lit.length) := by
  intro lit
  induction lit with
  | nil => intro _ rest stack cnt; simp
  | cons c lt ih =>
      intro h rest stack cnt
      obtain ⟨h1, h2⟩ := h c (by simp)
      rw [List.cons_append,
        show fbScan (c :: (lt ++ rest)) stack true '"' false cnt =
          fbScan (lt ++ rest) stack true '"' false (cnt + 1) by
            simp [fbScan, h1, h2],
        ih (fun x hx => h x (by simp [hx])) rest stack (cnt + 1)]
      congr 1
      simp [Nat.add_comm, Nat.add_assoc, Nat.add_left_comm]

theorem findBalancedJSON_from0 (l : List Char) (hne : l ≠ [])
    (hfi : firstIdxOf '{' l = some 0) :
    findBalancedJSON (String.mk l) = fbRun l 0 := by
  unfold findBalancedJSON
  rw [if_neg (by simp [mk_eq_empty_iff, hne])]
  dsimp only
  rw [hfi]
  cases hbr : firstIdxOf '[' l with
  | none => rfl
  | some j =>
      dsimp only
      rw [show min 0 j = 0 by simp]

/-- Claim C7: bracket characters inside a string literal are inert to the
balanced scan — for any literal body free of quotes and backslashes
(braces and brackets allowed), the span returned for `{"body"}` is the
whole text, ending at the real closing brace; and when the text ends
before the brace (non-empty bracket stack at end of input), the scan
returns "none found". -/
theorem c7_stringlit_safety (lit : List Char)
    (h : ∀ c ∈ lit, c ≠ '"' ∧ c ≠ '\\') :
    findBalancedJSON (String.mk ('{' :: '"' :: (lit ++ ['"', '}']))) =
      some (String.mk ('{' :: '"' :: (lit ++ ['"', '}']))) ∧
    findBalancedJSON (String.mk ('{' :: '"' :: lit)) = none := by
  have hscan : ∀ l : List Char,
      fbScan ('{' :: '"' :: l) [] false '"' false 0 =
        fbScan l ['{'] true '"' false 2 := by
    intro l
    simp [fbScan]
  constructor
  · rw [findBalancedJSON_from0 _ (by simp) (by simp [firstIdxOf])]
    unfold fbRun
    rw [List.drop_zero, hscan, fbScan_stringlit lit h ['"', '}'] ['{'] 2,
      show fbScan ['"', '}'] ['{'] true '"' false (2 + lit.length) =
        some (2 + lit.length + 2) by simp [fbScan]]
    rw [show (2 + lit.length + 2) =
      ('{' :: '"' :: (lit ++ ['"', '}'])).length by simp; omega]
    simp [List.take_succ_cons, List.take_of_length_le]
  · rw [findBalancedJSON_from0 _ (by simp) (by simp [firstIdxOf])]
    unfold fbRun
    rw [List.drop_zero,
      show ('{' :: '"' :: lit : List Char) = '{' :: '"' :: (lit ++ []) by simp,
      hscan, fbScan_stringlit lit h [] ['{'] 2]
    rfl

/-- Witness for C7 with a brace and a bracket inside the literal. -/
theorem c7_stringlit_witness :
    (∀ c ∈ ['a', '}', 'b', '['], c ≠ '"' ∧ c ≠ '\\') ∧
    findBalancedJSON (String.mk ['{', '"', 'a', '}', 'b', '[', '"', '}']) =
      some (String.mk ['{', '"', 'a', '}', 'b', '[', '"', '}']) ∧
    findBalancedJSON (String.mk ['{', '"', 'a', '}', 'b', '[']) = none := by
  have h := c7_stringlit_safety ['a', '}', 'b', '['] (by decide)
  exact ⟨by decide, h.1, h.2⟩

theorem findSome?_append {α β : Type} (l1 l2 : List α) (f : α → Option β) :
    (l1 ++ l2).findSome? f =
      match l1.findSome? f with
      | some b => some b
      | none => l2.findSome? f := by
  induction l1 with
  | nil => simp [List.findSome?]
  | cons a l ih =>
      cases h : f a <;> simp [List.findSome?, h, ih]

theorem tryTwo_eq (b : String) :
    tryTwo b = (repairPair b).findSome? jsonParse := by
  unfold tryTwo repairPair
  cases h : jsonParse (removeTrailingCommas b) <;>
    simp [List.findSome?, h] <;>
    cases jsonParse (removeTrailingCommas (singleQuotesToDouble
      (removeTrailingCommas b))) <;> rfl

theorem stage5_eq (content : String) :
    stage5 content =
      match (optCands (greedySub '[' ']' content)).findSome? jsonParse with
      | some v => .ok v
      | none => .error (parseFailMsg content) := by
  unfold stage5
  cases hm : greedySub '[' ']' content with
  | none => rfl
  | some b =>
      simp only [optCands]
      rw [tryTwo_eq]

theorem stage4_eq (content : String) :
    stage4 content =
      match (optCands (greedySub '{' '}' content) ++
          optCands (greedySub '[' ']' content)).findSome? jsonParse with
      | some v => .ok v
      | none => .error (parseFailMsg content) := by
  unfold stage4
  cases hm : greedySub '{' '}' content with
  | none =>
      simp only [optCands, List.nil_append]
      exact stage5_eq content
  | some b =>
      simp only [optCands]
      rw [findSome?_append, tryTwo_eq]
      cases h : (repairPair b).findSome? jsonParse with
      | some v => rfl
      | none => exact stage5_eq content

theorem stage3_eq (content : String) :
    stage3 content =
      match (optCands (findBalancedJSON content) ++
          (optCands (greedySub '{' '}' content) ++
            optCands (greedySub '[' ']' content))).findSome? jsonParse with
      | some v => .ok v
      | none => .error (parseFailMsg content) := by
  unfold stage3
  cases hm : findBalancedJSON content with
  | none =>
      simp only [optCands, List.nil_append]
      exact stage4_eq content
  | some b =>
      simp only [optCands]
      rw [findSome?_append, tryTwo_eq]
      cases h : (repairPair b).findSome? jsonParse with
      | some v => rfl
      | none => exact stage4_eq content

/-- Claim C2: `safeParseModelJson` is exactly the first-success
orchestration of the claim's ordered candidate list — the unmodified text,
the marker extraction (trimmed and comma-repaired), the balanced block
with the two-step repair sequence, the greedy `{...}` substring with the
same repairs, and the greedy `[...]` substring with the same repairs — and
it raises the diagnostic error (with the first 2000 characters of the
input) exactly when every attempt fails. -/
theorem c2_orchestration (content : String) :
    safeParseModelJson content =
      match (claimCandidates content).findSome? jsonParse with
      | some v => .ok v
      | none => .error (parseFailMsg content) := by
  unfold claimCandidates
  rw [List.append_assoc, List.append_assoc, List.append_assoc,
    findSome?_append, findSome?_append]
  unfold safeParseModelJson
  cases h1 : jsonParse content with
  | some v => simp [List.findSome?, h1]
  | none =>
      simp only [List.findSome?, h1]
      cases h2 : markerCleaned content with
      | some cleaned =>
          simp only [h2, Option.toList]
          cases h3 : jsonParse cleaned with
          | some v => simp [List.findSome?, h3]
          | none =>
              simp only [List.findSome?, h3]
              exact stage3_eq content
      | none =>
          simp only [h2, Option.toList, List.findSome?]
          exact stage3_eq content

theorem lookupProp_numFieldStep_ne {f f' : String} (h : f' ≠ f)
    (fb : List (String × JSValue) → JSValue) (m : List (String × JSValue)) :
    lookupProp (numFieldStep f fb m) f' = lookupProp m f' := by
  unfold numFieldStep
  split <;> simp [lookupProp_objSet_ne h]

theorem lookupProp_numFieldStep_self (f : String)
    (fb : List (String × JSValue) → JSValue) (m : List (String × JSValue)) :
    lookupProp (numFieldStep f fb m) f =
      match lookupProp m f with
      | .undef => .undef
      | v => convNum v (fb m) := by
  unfold numFieldStep
  cases h : lookupProp m f <;> simp [h, lookupProp_objSet_self]

theorem lookupProp_ganZhiStep_ne {f : String} (h : f ≠ "ganZhi")
    (m : List (String × JSValue)) :
    lookupProp (ganZhiStep m) f = lookupProp m f := by
  unfold ganZhiStep
  split <;> simp [lookupProp_objSet_ne h]

theorem lookupProp_reasonStep_ne {f : String} (h : f ≠ "reason")
    (m : List (String × JSValue)) :
    lookupProp (reasonStep m) f = lookupProp m f := by
  unfold reasonStep
  simp [lookupProp_objSet_ne h]

theorem normItem_field (y : ℚ) (it : JSValue) :
    ∀ f ∈ numFieldsC3,
      getProp (normItem y it) f = claimFieldC3 y (preFields it) f := by
  intro f hf
  have hf' : f = "age" ∨ f = "year" ∨ f = "open" ∨ f = "close" ∨
      f = "high" ∨ f = "low" ∨ f = "score" := by
    simpa [numFieldsC3] using hf
  rcases hf' with rfl | rfl | rfl | rfl | rfl | rfl | rfl <;>
    · show lookupProp (reasonStep (ganZhiStep _)) _ = _
      rw [lookupProp_reasonStep_ne (by decide), lookupProp_ganZhiStep_ne (by decide)]
      simp only [lookupProp_numFieldStep_ne (by decide : ("age" : String) ≠ "year"),
        lookupProp_numFieldStep_ne (by decide : ("age" : String) ≠ "open"),
        lookupProp_numFieldStep_ne (by decide : ("age" : String) ≠ "close"),
        lookupProp_numFieldStep_ne (by decide : ("age" : String) ≠ "high"),
        lookupProp_numFieldStep_ne (by decide : ("age" : String) ≠ "low"),
        lookupProp_numFieldStep_ne (by decide : ("age" : String) ≠ "score"),
        lookupProp_numFieldStep_ne (by decide : ("year" : String) ≠ "age"),
        lookupProp_numFieldStep_ne (by decide : ("year" : String) ≠ "open"),
        lookupProp_numFieldStep_ne (by decide : ("year" : String) ≠ "close"),
        lookupProp_numFieldStep_ne (by decide : ("year" : String) ≠ "high"),
        lookupProp_numFieldStep_ne (by decide : ("year" : String) ≠ "low"),
        lookupProp_numFieldStep_ne (by decide : ("year" : String) ≠ "score"),
        lookupProp_numFieldStep_ne (by decide : ("open" : String) ≠ "age"),
        lookupProp_numFieldStep_ne (by decide : ("open" : String) ≠ "year"),
        lookupProp_numFieldStep_ne (by decide : ("open" : String) ≠ "close"),
        lookupProp_numFieldStep_ne (by decide : ("open" : String) ≠ "high"),
        lookupProp_numFieldStep_ne (by decide : ("open" : String) ≠ "low"),
        lookupProp_numFieldStep_ne (by decide : ("open" : String) ≠ "score"),
        lookupProp_numFieldStep_ne (by decide : ("close" : String) ≠ "age"),
        lookupProp_numFieldStep_ne (by decide : ("close" : String) ≠ "year"),
        lookupProp_numFieldStep_ne (by decide : ("close" : String) ≠ "open"),
        lookupProp_numFieldStep_ne (by decide : ("close" : String) ≠ "high"),
        lookupProp_numFieldStep_ne (by decide : ("close" : String) ≠ "low"),
        lookupProp_numFieldStep_ne (by decide : ("close" : String) ≠ "score"),
        lookupProp_numFieldStep_ne (by decide : ("high" : String) ≠ "age"),
        lookupProp_numFieldStep_ne (by decide : ("high" : String) ≠ "year"),
        lookupProp_numFieldStep_ne (by decide : ("high" : String) ≠ "open"),
        lookupProp_numFieldStep_ne (by decide : ("high" : String) ≠ "close"),
        lookupProp_numFieldStep_ne (by decide : ("high" : String) ≠ "low"),
        lookupProp_numFieldStep_ne (by decide : ("high" : String) ≠ "score"),
        lookupProp_numFieldStep_ne (by decide : ("low" : String) ≠ "age"),
        lookupProp_numFieldStep_ne (by decide : ("low" : String) ≠ "year"),
        lookupProp_numFieldStep_ne (by decide : ("low" : String) ≠ "open"),
        lookupProp_numFieldStep_ne (by decide : ("low" : String) ≠ "close"),
        lookupProp_numFieldStep_ne (by decide : ("low" : String) ≠ "high"),
        lookupProp_numFieldStep_ne (by decide : ("low" : String) ≠ "score"),
        lookupProp_numFieldStep_ne (by decide : ("score" : String) ≠ "age"),
        lookupProp_numFieldStep_ne (by decide : ("score" : String) ≠ "year"),
        lookupProp_numFieldStep_ne (by decide : ("score" : String) ≠ "open"),
        lookupProp_numFieldStep_ne (by decide : ("score" : String) ≠ "close"),
        lookupProp_numFieldStep_ne (by decide : ("score" : String) ≠ "high"),
        lookupProp_numFieldStep_ne (by decide : ("score" : String) ≠ "low"),
        lookupProp_numFieldStep_self, claimFieldC3, convField, hlFb, zeroFb]

theorem convNum_num (v fb : JSValue)
    (hfb : ∃ nb, fb = .num nb ∧ nb ≠ .nan) :
    ∃ n, convNum v fb = .num n ∧ n ≠ .nan := by
  unfold convNum JSValue.jsOr
  cases ht : (JSValue.num (toNumber v)).truthy
  · simpa [ht] using hfb
  · refine ⟨toNumber v, by simp [ht], ?_⟩
    intro he
    rw [JSValue.truthy] at ht
    rw [he] at ht
    simp [JSValue.truthyNum] at ht

theorem convField_cases (m0 : List (String × JSValue)) (f : String) :
    convField m0 f = .undef ∨
      ∃ n, convField m0 f = .num n ∧ n ≠ .nan := by
  unfold convField
  cases h : lookupProp m0 f
  · exact Or.inl rfl
  all_goals exact Or.inr (convNum_num _ _ ⟨.fin 0, rfl, by simp⟩)

theorem jsOr_pres {a b : JSValue}
    (ha : a = .undef ∨ ∃ n, a = .num n ∧ n ≠ .nan)
    (hb : ∃ n, b = .num n ∧ n ≠ .nan) :
    ∃ n, JSValue.jsOr a b = .num n ∧ n ≠ .nan := by
  unfold JSValue.jsOr
  rcases ha with rfl | ⟨n, rfl, hn⟩
  · simpa [JSValue.truthy] using hb
  · cases ht : (JSValue.num n).truthy
    · simpa [ht] using hb
    · exact ⟨n, by simp [ht], hn⟩

theorem claimField_num (y : ℚ) (m0 : List (String × JSValue)) :
    ∀ f ∈ numFieldsC3,
      claimFieldC3 y m0 f = .undef ∨
        ∃ n, claimFieldC3 y m0 f = .num n ∧ n ≠ .nan := by
  intro f hf
  have hf' : f = "age" ∨ f = "year" ∨ f = "open" ∨ f = "close" ∨
      f = "high" ∨ f = "low" ∨ f = "score" := by
    simpa [numFieldsC3] using hf
  have hfb0 : ∃ nb, (JSValue.num (.fin 0)) = JSValue.num nb ∧ nb ≠ JSNum.nan :=
    ⟨.fin 0, rfl, by simp⟩
  have hhl : ∃ n, JSValue.jsOr (convField m0 "open")
      (JSValue.jsOr (convField m0 "close") (.num (.fin 0))) = .num n ∧
      n ≠ .nan :=
    jsOr_pres (convField_cases m0 "open")
      (jsOr_pres (convField_cases m0 "close") hfb0)
  rcases hf' with rfl | rfl | rfl | rfl | rfl | rfl | rfl
  · exact convField_cases m0 "age"
  · simp only [claimFieldC3]
    cases h : lookupProp m0 "year"
    · exact Or.inl rfl
    all_goals exact Or.inr (convNum_num _ _ ⟨.fin y, rfl, by simp⟩)
  · exact convField_cases m0 "open"
  · exact convField_cases m0 "close"
  · simp only [claimFieldC3]
    cases h : lookupProp m0 "high"
    · exact Or.inl rfl
    all_goals exact Or.inr (convNum_num _ _ hhl)
  · simp only [claimFieldC3]
    cases h : lookupProp m0 "low"
    · exact Or.inl rfl
    all_goals exact Or.inr (convNum_num _ _ hhl)
  · exact convField_cases m0 "score"

/-- Counterexample to claim C3 as stated: a chart element with no numeric
fields at all keeps them absent — `age` is undefined after normalization,
not the documented fallback 0 — because every coercion in the source is
guarded by `!== undefined`. -/
theorem c3_counterexample :
    getProp (normalizeParsedData 2025 (.obj c3ex)) "chartData" =
      .arr [.obj [("ganZhi", .str ""), ("reason", .str "")]] ∧
    getProp (.obj [("ganZhi", .str ""), ("reason", .str "")]) "age" = .undef ∧
    ∀ n : JSNum,
      getProp (.obj [("ganZhi", .str ""), ("reason", .str "")]) "age" ≠ .num n :=
  ⟨rfl, rfl, fun _ h => JSValue.noConfusion h⟩

/-- Claim C3, amended: when the chart resolves to a sequence, the
canonical `chartData` is that sequence with every element normalized, and
for each of the fields age, year, open, close, high, low, score: a field
absent from the element (after the string-parse step) stays absent, and a
present field becomes its JS number conversion when that conversion is
truthy (non-zero, non-NaN), otherwise the fallback — 0 for age, open,
close, score; the current calendar year for year; the already-converted
`open` when truthy, else the already-converted `close` when truthy, else 0
for high and low.  Hence every present numeric field of a normalized
element is a number — never text and never NaN — though an infinite value
is kept. -/
theorem c3_numeric (y : ℚ) (m : List (String × JSValue))
    (items : List JSValue) (h : resolveChartFull m = .arr items) :
    getProp (normalizeParsedData y (.obj m)) "chartData" =
      .arr (items.map (normItem y)) ∧
    ∀ it ∈ items, ∀ f ∈ numFieldsC3,
      getProp (normItem y it) f = claimFieldC3 y (preFields it) f ∧
      (getProp (normItem y it) f = .undef ∨
        ∃ n, getProp (normItem y it) f = .num n ∧ n ≠ .nan) := by
  constructor
  · show lookupProp (wrapStep (.obj m) (baziStep (chartPhase y m))) "chartData" = _
    have hcp : chartPhase y m =
        objSet "chartData" (.arr (items.map (normItem y))) m := by
      unfold chartPhase
      rw [h]
    have hl : lookupProp (baziStep (chartPhase y m)) "chartData" =
        .arr (items.map (normItem y)) := by
      rw [lookupProp_baziStep_ne _ (by decide), hcp, lookupProp_objSet_self]
    unfold wrapStep
    rw [hl]
    simp only [JSValue.isArr, if_true]
    exact hl
  · intro it _ f hf
    refine ⟨normItem_field y it f hf, ?_⟩
    rw [normItem_field y it f hf]
    exact claimField_num y (preFields it) f hf

/-- Witness for C3 (amended) at the spec's numeric-fallback example
element. -/
theorem c3_numeric_witness :
    resolveChartFull
        [("chartData", .arr [.obj [("open", .str "50"), ("high", .str "abc")]])] =
      .arr [.obj [("open", .str "50"), ("high", .str "abc")]] ∧
    getProp (normalizeParsedData 2025 (.obj
        [("chartData", .arr [.obj [("open", .str "50"), ("high", .str "abc")]])]))
      "chartData" =
      .arr [.obj [("open", .num (.fin 50)), ("high", .num (.fin 50)),
        ("ganZhi", .str ""), ("reason", .str "")]] :=
  ⟨rfl,
    ((c3_numeric 2025
      [("chartData", .arr [.obj [("open", .str "50"), ("high", .str "abc")]])]
      [.obj [("open", .str "50"), ("high", .str "abc")]] rfl).1).trans rfl⟩

theorem yearAgree_refl : ∀ d, List.Forall₂ yearAgree d d := by
  intro d
  induction d with
  | nil => exact List.Forall₂.nil
  | cons p rest ih => exact List.Forall₂.cons ⟨rfl, fun _ => rfl⟩ ih

theorem yearAgree_lookup_ne {d e : List (String × JSValue)}
    (h : List.Forall₂ yearAgree d e) {k : String} (hk : k ≠ "year") :
    lookupProp d k = lookupProp e k := by
  induction h with
  | nil => rfl
  | cons hpq _ ih =>
      rename_i p q d' e' _
      obtain ⟨pk, pv⟩ := p
      obtain ⟨qk, qv⟩ := q
      obtain ⟨hk1, hv⟩ := hpq
      simp only at hk1 hv
      subst hk1
      by_cases he : pk = k
      · subst he
        simp only [lookupProp, if_pos rfl]
        exact hv hk
      · simp only [lookupProp, if_neg he]
        exact ih

theorem yearAgree_objSet_same (k : String) (v : JSValue)
    {d e : List (String × JSValue)} (h : List.Forall₂ yearAgree d e) :
    List.Forall₂ yearAgree (objSet k v d) (objSet k v e) := by
  induction h with
  | nil => exact List.Forall₂.cons ⟨rfl, fun _ => rfl⟩ List.Forall₂.nil
  | cons hpq hrest ih =>
      rename_i p q d' e'
      obtain ⟨pk, pv⟩ := p
      obtain ⟨qk, qv⟩ := q
      obtain ⟨hk1, hv⟩ := hpq
      simp only at hk1 hv
      subst hk1
      by_cases he : pk = k
      · simp only [objSet, if_pos he]
        exact List.Forall₂.cons ⟨rfl, fun _ => rfl⟩ hrest
      · simp only [objSet, if_neg he]
        exact List.Forall₂.cons ⟨rfl, hv⟩ ih

theorem yearAgree_objSet_year (v w : JSValue)
    {d e : List (String × JSValue)} (h : List.Forall₂ yearAgree d e) :
    List.Forall₂ yearAgree (objSet "year" v d) (objSet "year" w e) := by
  induction h with
  | nil =>
      exact List.Forall₂.cons ⟨rfl, fun hne => absurd rfl hne⟩ List.Forall₂.nil
  | cons hpq hrest ih =>
      rename_i p q d' e'
      obtain ⟨pk, pv⟩ := p
      obtain ⟨qk, qv⟩ := q
      obtain ⟨hk1, hv⟩ := hpq
      simp only at hk1 hv
      subst hk1
      by_cases he : pk = "year"
      · simp only [objSet, if_pos he]
        exact List.Forall₂.cons ⟨rfl, fun hne => absurd he hne⟩ hrest
      · simp only [objSet, if_neg he]
        exact List.Forall₂.cons ⟨rfl, hv⟩ ih

theorem yearAgree_symm {d e : List (String × JSValue)}
    (h : List.Forall₂ yearAgree d e) : List.Forall₂ yearAgree e d := by
  induction h with
  | nil => exact List.Forall₂.nil
  | cons hpq _ ih =>
      obtain ⟨hk1, hv⟩ := hpq
      exact List.Forall₂.cons
        ⟨hk1.symm, fun hne => (hv (hk1 ▸ hne)).symm⟩ ih

theorem yearAgree_objSet_year_right {d e : List (String × JSValue)}
    (h : List.Forall₂ yearAgree d e) :
    lookupProp e "year" ≠ .undef → ∀ w,
      List.Forall₂ yearAgree d (objSet "year" w e) := by
  induction h with
  | nil => intro hne; exact absurd rfl hne
  | cons hpq hrest ih =>
      intro hne w
      rename_i p q d' e'
      obtain ⟨pk, pv⟩ := p
      obtain ⟨qk, qv⟩ := q
      obtain ⟨hk1, hv⟩ := hpq
      simp only at hk1 hv
      subst hk1
      by_cases he : pk = "year"
      · simp only [objSet, if_pos he]
        exact List.Forall₂.cons ⟨rfl, fun hn => absurd he hn⟩ hrest
      · simp only [objSet, if_neg he]
        refine List.Forall₂.cons ⟨rfl, hv⟩ (ih ?_ w)
        simpa [lookupProp, if_neg he] using hne

theorem yearAgree_eraseKey {d e : List (String × JSValue)}
    (h : List.Forall₂ yearAgree d e) :
    eraseKey "year" d = eraseKey "year" e := by
  induction h with
  | nil => rfl
  | cons hpq _ ih =>
      rename_i p q d' e' _
      obtain ⟨pk, pv⟩ := p
      obtain ⟨qk, qv⟩ := q
      obtain ⟨hk1, hv⟩ := hpq
      simp only at hk1 hv
      subst hk1
      unfold eraseKey at ih ⊢
      simp only [ne_eq, decide_not] at ih ⊢
      by_cases he : pk = "year"
      · simp [List.filter_cons, he, ih]
      · have hval : pv = qv := hv he
        subst hval
        simp [List.filter_cons, he, ih]

theorem yearAgree_numFieldStep (f : String) (hf : f ≠ "year")
    (fb : List (String × JSValue) → JSValue)
    (hfb : ∀ d e, List.Forall₂ yearAgree d e → fb d = fb e)
    {d e : List (String × JSValue)} (h : List.Forall₂ yearAgree d e) :
    List.Forall₂ yearAgree (numFieldStep f fb d) (numFieldStep f fb e) := by
  unfold numFieldStep
  rw [yearAgree_lookup_ne h hf]
  cases lookupProp e f
  · exact h
  all_goals
    rw [hfb d e h]
    exact yearAgree_objSet_same _ _ h

theorem yearAgree_yearStep (y1 y2 : ℚ) {d e : List (String × JSValue)}
    (h : List.Forall₂ yearAgree d e) :
    List.Forall₂ yearAgree
      (numFieldStep "year" (fun _ => .num (.fin y1)) d)
      (numFieldStep "year" (fun _ => .num (.fin y2)) e) := by
  unfold numFieldStep
  cases hd : lookupProp d "year" <;> cases he : lookupProp e "year"
  case undef.undef => exact h
  all_goals first
    | exact yearAgree_objSet_year _ _ h
    | (exact yearAgree_objSet_year_right h (by rw [he]; intro hc; cases hc) _)
    | (exact yearAgree_symm
        (yearAgree_objSet_year_right (yearAgree_symm h)
          (by rw [hd]; intro hc; cases hc) _))

theorem yearAgree_hlFb {d e : List (String × JSValue)}
    (h : List.Forall₂ yearAgree d e) : hlFb d = hlFb e := by
  unfold hlFb
  rw [yearAgree_lookup_ne h (by decide), yearAgree_lookup_ne h (by decide)]

theorem yearAgree_ganZhiStep {d e : List (String × JSValue)}
    (h : List.Forall₂ yearAgree d e) :
    List.Forall₂ yearAgree (ganZhiStep d) (ganZhiStep e) := by
  unfold ganZhiStep
  rw [yearAgree_lookup_ne h (show ("ganZhi" : String) ≠ "year" by decide),
    yearAgree_lookup_ne h (show ("yang" : String) ≠ "year" by decide)]
  split
  · exact yearAgree_objSet_same _ _ h
  · exact h

theorem yearAgree_reasonStep {d e : List (String × JSValue)}
    (h : List.Forall₂ yearAgree d e) :
    List.Forall₂ yearAgree (reasonStep d) (reasonStep e) := by
  unfold reasonStep
  rw [yearAgree_lookup_ne h (show ("reason" : String) ≠ "year" by decide)]
  exact yearAgree_objSet_same _ _ h

theorem normItemFields_yearAgree (y1 y2 : ℚ) (it : JSValue) :
    List.Forall₂ yearAgree (normItemFields y1 it) (normItemFields y2 it) := by
  unfold normItemFields
  apply yearAgree_reasonStep
  apply yearAgree_ganZhiStep
  apply yearAgree_numFieldStep "score" (by decide) zeroFb (fun _ _ _ => rfl)
  apply yearAgree_numFieldStep "low" (by decide) hlFb
    (fun _ _ hh => yearAgree_hlFb hh)
  apply yearAgree_numFieldStep "high" (by decide) hlFb
    (fun _ _ hh => yearAgree_hlFb hh)
  apply yearAgree_numFieldStep "close" (by decide) zeroFb (fun _ _ _ => rfl)
  apply yearAgree_numFieldStep "open" (by decide) zeroFb (fun _ _ _ => rfl)
  apply yearAgree_yearStep
  exact yearAgree_refl _

theorem stripYearEl_normItem (y1 y2 : ℚ) (it : JSValue) :
    stripYearEl (normItem y1 it) = stripYearEl (normItem y2 it) := by
  show JSValue.obj (eraseKey "year" (normItemFields y1 it)) =
    .obj (eraseKey "year" (normItemFields y2 it))
  exact congrArg _ (yearAgree_eraseKey (normItemFields_yearAgree y1 y2 it))

theorem chartAgree_refl : ∀ d, List.Forall₂ chartAgree d d := by
  intro d
  induction d with
  | nil => exact List.Forall₂.nil
  | cons p rest ih =>
      refine List.Forall₂.cons ⟨rfl, ?_⟩ ih
      split <;> rfl

theorem chartAgree_lookup_ne {d e : List (String × JSValue)}
    (h : List.Forall₂ chartAgree d e) {k : String} (hk : k ≠ "chartData") :
    lookupProp d k = lookupProp e k := by
  induction h with
  | nil => rfl
  | cons hpq _ ih =>
      rename_i p q d' e' _
      obtain ⟨pk, pv⟩ := p
      obtain ⟨qk, qv⟩ := q
      obtain ⟨hk1, hv⟩ := hpq
      simp only at hk1 hv
      subst hk1
      by_cases he : pk = k
      · subst he
        rw [if_neg (fun hc => hk hc)] at hv
        simp only [lookupProp, if_pos rfl]
        exact hv
      · simp only [lookupProp, if_neg he]
        exact ih

theorem chartAgree_lookup_cd {d e : List (String × JSValue)}
    (h : List.Forall₂ chartAgree d e) :
    stripYearArr (lookupProp d "chartData") =
      stripYearArr (lookupProp e "chartData") := by
  induction h with
  | nil => rfl
  | cons hpq _ ih =>
      rename_i p q d' e' _
      obtain ⟨pk, pv⟩ := p
      obtain ⟨qk, qv⟩ := q
      obtain ⟨hk1, hv⟩ := hpq
      simp only at hk1 hv
      subst hk1
      by_cases he : pk = "chartData"
      · rw [if_pos he] at hv
        simp only [lookupProp, if_pos he]
        exact hv
      · simp only [lookupProp, if_neg he]
        exact ih

theorem chartAgree_objSet_same (k : String) (v : JSValue)
    {d e : List (String × JSValue)} (h : List.Forall₂ chartAgree d e) :
    List.Forall₂ chartAgree (objSet k v d) (objSet k v e) := by
  induction h with
  | nil =>
      refine List.Forall₂.cons ⟨rfl, ?_⟩ List.Forall₂.nil
      split <;> rfl
  | cons hpq hrest ih =>
      rename_i p q d' e'
      obtain ⟨pk, pv⟩ := p
      obtain ⟨qk, qv⟩ := q
      obtain ⟨hk1, hv⟩ := hpq
      simp only at hk1 hv
      subst hk1
      by_cases he : pk = k
      · simp only [objSet, if_pos he]
        refine List.Forall₂.cons ⟨rfl, ?_⟩ hrest
        split <;> rfl
      · simp only [objSet, if_neg he]
        exact List.Forall₂.cons ⟨rfl, hv⟩ ih

theorem chartAgree_objSet_cd (v w : JSValue)
    (hvw : stripYearArr v = stripYearArr w)
    {d e : List (String × JSValue)} (h : List.Forall₂ chartAgree d e) :
    List.Forall₂ chartAgree (objSet "chartData" v d) (objSet "chartData" w e) := by
  induction h with
  | nil =>
      refine List.Forall₂.cons ⟨rfl, ?_⟩ List.Forall₂.nil
      rw [if_pos rfl]
      exact hvw
  | cons hpq hrest ih =>
      rename_i p q d' e'
      obtain ⟨pk, pv⟩ := p
      obtain ⟨qk, qv⟩ := q
      obtain ⟨hk1, hv⟩ := hpq
      simp only at hk1 hv
      subst hk1
      by_cases he : pk = "chartData"
      · simp only [objSet, if_pos he]
        refine List.Forall₂.cons ⟨rfl, ?_⟩ hrest
        rw [if_pos he]
        exact hvw
      · simp only [objSet, if_neg he]
        exact List.Forall₂.cons ⟨rfl, hv⟩ ih

theorem stripYearArr_isArr {v w : JSValue}
    (h : stripYearArr v = stripYearArr w) : v.isArr = w.isArr := by
  cases v <;> cases w <;>
    simp_all [stripYearArr, JSValue.isArr]

theorem chartAgree_baziStep {d e : List (String × JSValue)}
    (h : List.Forall₂ chartAgree d e) :
    List.Forall₂ chartAgree (baziStep d) (baziStep e) := by
  unfold baziStep
  rw [chartAgree_lookup_ne h (by decide)]
  cases lookupProp e "analysis" with
  | obj am =>
      dsimp only
      cases lookupProp am "bazi" with
      | str s => exact chartAgree_objSet_same _ _ h
      | undef => exact h
      | arr l => exact h
      | null => exact chartAgree_objSet_same _ _ h
      | bool b => exact chartAgree_objSet_same _ _ h
      | num n => exact chartAgree_objSet_same _ _ h
      | obj f => exact chartAgree_objSet_same _ _ h
  | undef => exact h
  | null => exact h
  | bool b => exact h
  | num n => exact h
  | str s => exact h
  | arr l => exact h

theorem chartAgree_wrapStep (raw : JSValue) {d e : List (String × JSValue)}
    (h : List.Forall₂ chartAgree d e) :
    List.Forall₂ chartAgree (wrapStep raw d) (wrapStep raw e) := by
  have hia : (lookupProp d "chartData").isArr = (lookupProp e "chartData").isArr :=
    stripYearArr_isArr (chartAgree_lookup_cd h)
  unfold wrapStep
  rw [hia]
  cases hb : (lookupProp e "chartData").isArr
  · simp only [Bool.false_eq_true, if_false]
    cases wrapProbe raw with
    | arr xs => exact chartAgree_objSet_same _ _ h
    | obj f => exact chartAgree_objSet_same _ _ h
    | undef => exact h
    | null => exact h
    | bool b => exact h
    | num n => exact h
    | str s => exact h
  · simp only [if_true]
    exact h

theorem chartAgree_stripYear {d e : List (String × JSValue)}
    (h : List.Forall₂ chartAgree d e) :
    stripYear (.obj d) = stripYear (.obj e) := by
  show JSValue.obj (d.map _) = .obj (e.map _)
  refine congrArg _ ?_
  induction h with
  | nil => rfl
  | cons hpq _ ih =>
      rename_i p q d' e' _
      obtain ⟨pk, pv⟩ := p
      obtain ⟨qk, qv⟩ := q
      obtain ⟨hk1, hv⟩ := hpq
      simp only at hk1 hv
      subst hk1
      simp only [List.map_cons, ih]
      by_cases he : pk = "chartData"
      · rw [if_pos he] at hv
        simp [he, hv]
      · rw [if_neg he] at hv
        simp [he, hv]

theorem stripYear_normalize (y1 y2 : ℚ) (v : JSValue) :
    stripYear (normalizeParsedData y1 v) = stripYear (normalizeParsedData y2 v) := by
  have body : ∀ (raw : JSValue) (d0 : List (String × JSValue)),
      stripYear (.obj (wrapStep raw (baziStep (chartPhase y1 d0)))) =
        stripYear (.obj (wrapStep raw (baziStep (chartPhase y2 d0)))) := by
    intro raw d0
    have h1 : List.Forall₂ chartAgree (chartPhase y1 d0) (chartPhase y2 d0) := by
      unfold chartPhase
      cases hr : resolveChartFull d0 with
      | arr items =>
          refine chartAgree_objSet_cd _ _ ?_ (chartAgree_refl d0)
          show JSValue.arr ((items.map (normItem y1)).map stripYearEl) =
            .arr ((items.map (normItem y2)).map stripYearEl)
          rw [List.map_map, List.map_map]
          exact congrArg _ (List.map_congr_left
            (fun it _ => stripYearEl_normItem y1 y2 it))
      | undef => exact chartAgree_refl d0
      | null => exact chartAgree_refl d0
      | bool b => exact chartAgree_refl d0
      | num n => exact chartAgree_refl d0
      | str s => exact chartAgree_refl d0
      | obj f => exact chartAgree_refl d0
    exact chartAgree_stripYear (chartAgree_wrapStep raw (chartAgree_baziStep h1))
  cases v with
  | arr xs => exact body (.arr xs) (idxFrom 0 xs)
  | obj m => exact body (.obj m) m
  | undef => rfl
  | null => rfl
  | bool b => rfl
  | num n => rfl
  | str s => rfl

/-- Counterexample to claim C9 as stated: the same completion text,
normalized when the wall clock reads calendar year 2025 versus 2026,
yields different results — the year fallback of a chart element reads
`new Date().getFullYear()`. -/
theorem c9_counterexample :
    pipeline 2025 c9content ≠ pipeline 2026 c9content := by
  intro h
  rw [show pipeline 2025 c9content = Except.ok (.obj [("chartData",
        .arr [.obj [("year", .num (.fin 2025)), ("ganZhi", .str ""),
          ("reason", .str "")]])]) from rfl,
    show pipeline 2026 c9content = Except.ok (.obj [("chartData",
        .arr [.obj [("year", .num (.fin 2026)), ("ganZhi", .str ""),
          ("reason", .str "")]])]) from rfl] at h
  simp only [Except.ok.injEq, JSValue.obj.injEq, List.cons.injEq,
    Prod.mk.injEq, JSValue.arr.injEq, JSValue.num.injEq, JSNum.fin.injEq,
    and_true, true_and] at h
  norm_num at h

/-- Claim C9, amended: the pipeline is a pure function of its input text
and the current calendar year; two invocations at different external
states agree everywhere except possibly the `year` fields of `chartData`
elements (where the calendar-year fallback may differ). -/
theorem c9_pure_up_to_year (y1 y2 : ℚ) (content : String) :
    (pipeline y1 content).map stripYear = (pipeline y2 content).map stripYear := by
  unfold pipeline
  cases h : safeParseModelJson content with
  | ok v =>
      simp only [Except.map]
      rw [stripYear_normalize y1 y2 v]
  | error e => simp only [Except.map]

/-- Counterexample to claim C4 as stated: in `c4content` the end sentinel
occurs only before the start sentinel, so the claim says the marker
strategy is not applicable — yet the code's `split`-based extraction still
produces the text after the start sentinel, and the pipeline parses it,
returning `{"a": 1}` (the claimed behaviour would instead fall through to
the balanced block `{"b": 2}`). -/
theorem c4_counterexample :
    markerExtract c4content = some "\x7b\"a\":1\x7d" ∧
    claimMarkerSpec c4content = none ∧
    safeParseModelJson c4content = .ok (.obj [("a", .num (.fin 1))]) :=
  ⟨rfl, rfl, rfl⟩

theorem findSub_nil_of_ne {p : List Char} (hp : p ≠ []) :
    findSub p [] = none := by
  unfold findSub
  simp [hp]

theorem splitGo_succ (p : List Char) (fuel : Nat) (l : List Char) :
    splitGo p (fuel + 1) l =
      match findSub p l with
      | none => [l]
      | some i => l.take i :: splitGo p fuel (l.drop (i + p.length)) := rfl

theorem splitGo_head (p : List Char) (fuel : Nat) (l : List Char)
    (hf : 1 ≤ fuel) :
    (splitGo p fuel l).head? = some (cutAt p l) := by
  cases fuel with
  | zero => omega
  | succ f =>
      rw [splitGo_succ]
      unfold cutAt
      cases h : findSub p l <;> simp

theorem splitOnSub_head (p l : List Char) :
    (splitOnSub p l).head? = some (cutAt p l) :=
  splitGo_head p (l.length + 1) l (by omega)

theorem splitOnSub_get1 {p l : List Char} {i : Nat}
    (hi : findSub p l = some i) (hp : p ≠ []) :
    (splitOnSub p l).get? 1 = some (cutAt p (l.drop (i + p.length))) := by
  have hl : l ≠ [] := by
    intro he
    rw [he, findSub_nil_of_ne hp] at hi
    cases hi
  unfold splitOnSub
  rw [splitGo_succ, hi]
  dsimp only
  rw [List.get?_cons_succ, List.get?_zero]
  exact splitGo_head p l.length _ (by
    cases l with
    | nil => exact absurd rfl hl
    | cons a t => simp)

theorem cutAt_eq_of_head {p : List Char} {ll : List (List Char)}
    {b : List Char} {rest : List (List Char)} {l : List Char}
    (hsp : ll = b :: rest) (hh : ll.head? = some (cutAt p l)) :
    b = cutAt p l := by
  rw [hsp] at hh
  simpa using hh

/-- Claim C4, amended: when both sentinels occur anywhere in the text, the
extraction yields the text after the first start sentinel, truncated at
the next start sentinel (if any), then truncated at the first end sentinel
within that, trimmed; it yields no candidate exactly when either sentinel
is absent from the whole text or that substring is empty.  (In particular
an end sentinel occurring only before the start sentinel does not make the
strategy inapplicable.) -/
theorem c4_marker_eq_amended (content : String) :
    markerExtract content = amendedMarkerSpec content := by
  unfold markerExtract amendedMarkerSpec
  dsimp only
  cases hg : containsSub startMarker.data content.data &&
      containsSub endMarker.data content.data
  · simp
  · rw [if_pos rfl, if_pos rfl]
    obtain ⟨h1, _⟩ := Bool.and_eq_true_iff.mp hg
    unfold containsSub at h1
    obtain ⟨i, hi⟩ := Option.isSome_iff_exists.mp h1
    rw [hi, splitOnSub_get1 hi (by decide)]
    dsimp only
    cases hsp : splitOnSub endMarker.data
        (cutAt startMarker.data
          (content.data.drop (i + startMarker.data.length))) with
    | nil =>
        have hh := splitOnSub_head endMarker.data
          (cutAt startMarker.data
            (content.data.drop (i + startMarker.data.length)))
        rw [hsp] at hh
        cases hh
    | cons b rest =>
        have hb := cutAt_eq_of_head hsp (splitOnSub_head endMarker.data
          (cutAt startMarker.data
            (content.data.drop (i + startMarker.data.length))))
        dsimp only
        rw [hb]

end LifeKline
